import Mathlib

/-!
Verification development for the DockMind structure-enhancement and
reconciliation/import pipeline (backend/src/categorization/__init__.py and
backend/src/database/service.py).

The Python data and code are shallowly embedded:
* `PyVal` models the Python values produced by `json.loads` /
  `ast.literal_eval` on the serialized CSV fields (strings, integers, lists,
  string-keyed dicts; this is the fragment the pipeline actually exchanges).
* `json_loads` and `literal_eval` are executable parsers for that fragment;
  `json_loads` accepts only double-quoted strings, `literal_eval` accepts
  single- or double-quoted strings, mirroring the two Python parsers on the
  embedded grammar.
* The relational store is a `DB` value; `import_enhanced_structures` is
  the engine of `DatabaseService.import_enhanced_structures`, with the
  per-row body embedded as `processRow` and the commit/rollback bookkeeping
  made explicit (committed state vs. working state, plus a trace of commit
  points).  An injected failure index models an uncaught exception while
  persisting a row.
* The categorizer (`extract_binding_site_info`,
  `categorize_by_experimental_quality`, `calculate_ligand_properties`,
  `enhance_structure_data`, `batch_enhance_structures`) is embedded with
  rational coordinates; recorded contact distances are kept as squared
  Euclidean distances (the squaring bijection preserves every comparison
  against the 5.0 Angstrom threshold, which becomes 25).
-/

namespace DockMind

/-- Python value fragment exchanged through the serialized CSV fields:
strings, integers, lists and string-keyed dicts. -/
inductive PyVal where
  | vstr (s : String)
  | vint (n : Int)
  | vlist (xs : List PyVal)
  | vdict (kvs : List (String × PyVal))

/- Decidable equality for `PyVal`, by structural recursion so that concrete
instances evaluate inside the kernel. -/
mutual
def PyVal.decEq : (a b : PyVal) → Decidable (a = b)
  | .vstr a, .vstr b =>
      if h : a = b then .isTrue (by rw [h]) else .isFalse (fun hh => h (PyVal.vstr.inj hh))
  | .vint a, .vint b =>
      if h : a = b then .isTrue (by rw [h]) else .isFalse (fun hh => h (PyVal.vint.inj hh))
  | .vlist a, .vlist b =>
      match PyVal.decEqL a b with
      | .isTrue h => .isTrue (by rw [h])
      | .isFalse h => .isFalse (fun hh => h (PyVal.vlist.inj hh))
  | .vdict a, .vdict b =>
      match PyVal.decEqD a b with
      | .isTrue h => .isTrue (by rw [h])
      | .isFalse h => .isFalse (fun hh => h (PyVal.vdict.inj hh))
  | .vstr _, .vint _ => .isFalse (fun h => PyVal.noConfusion h)
  | .vstr _, .vlist _ => .isFalse (fun h => PyVal.noConfusion h)
  | .vstr _, .vdict _ => .isFalse (fun h => PyVal.noConfusion h)
  | .vint _, .vstr _ => .isFalse (fun h => PyVal.noConfusion h)
  | .vint _, .vlist _ => .isFalse (fun h => PyVal.noConfusion h)
  | .vint _, .vdict _ => .isFalse (fun h => PyVal.noConfusion h)
  | .vlist _, .vstr _ => .isFalse (fun h => PyVal.noConfusion h)
  | .vlist _, .vint _ => .isFalse (fun h => PyVal.noConfusion h)
  | .vlist _, .vdict _ => .isFalse (fun h => PyVal.noConfusion h)
  | .vdict _, .vstr _ => .isFalse (fun h => PyVal.noConfusion h)
  | .vdict _, .vint _ => .isFalse (fun h => PyVal.noConfusion h)
  | .vdict _, .vlist _ => .isFalse (fun h => PyVal.noConfusion h)
termination_by structural a _ => a
def PyVal.decEqL : (a b : List PyVal) → Decidable (a = b)
  | [], [] => .isTrue rfl
  | [], _ :: _ => .isFalse (fun h => List.noConfusion h)
  | _ :: _, [] => .isFalse (fun h => List.noConfusion h)
  | a :: as, b :: bs =>
      match PyVal.decEq a b with
      | .isTrue h1 =>
          match PyVal.decEqL as bs with
          | .isTrue h2 => .isTrue (by rw [h1, h2])
          | .isFalse h2 => .isFalse (fun hh => h2 (List.cons.inj hh).2)
      | .isFalse h1 => .isFalse (fun hh => h1 (List.cons.inj hh).1)
termination_by structural a _ => a
def PyVal.decEqD : (a b : List (String × PyVal)) → Decidable (a = b)
  | [], [] => .isTrue rfl
  | [], _ :: _ => .isFalse (fun h => List.noConfusion h)
  | _ :: _, [] => .isFalse (fun h => List.noConfusion h)
  | (k, v) :: as, (l, w) :: bs =>
      if hk : k = l then
        match PyVal.decEq v w with
        | .isTrue h1 =>
            match PyVal.decEqD as bs with
            | .isTrue h2 => .isTrue (by rw [hk, h1, h2])
            | .isFalse h2 => .isFalse (fun hh => h2 (List.cons.inj hh).2)
        | .isFalse h1 =>
            .isFalse (fun hh => h1 (congrArg Prod.snd (List.cons.inj hh).1))
      else .isFalse (fun hh => hk (congrArg Prod.fst (List.cons.inj hh).1))
termination_by structural a _ => a
end

instance : DecidableEq PyVal := PyVal.decEq

/-- Double-quote character, written by code point to keep source strings
free of quoting noise. -/
def dq : Char := Char.ofNat 34

/-- Single-quote character. -/
def sq : Char := Char.ofNat 39

/-- Left bracket. -/
def lbk : Char := Char.ofNat 91

/-- Right bracket. -/
def rbk : Char := Char.ofNat 93

/-- Left brace. -/
def lbr : Char := Char.ofNat 123

/-- Right brace. -/
def rbr : Char := Char.ofNat 125

/-- Comma. -/
def cma : Char := Char.ofNat 44

/-- Colon. -/
def cln : Char := Char.ofNat 58

/-- Minus sign. -/
def mns : Char := Char.ofNat 45

/-- The quote normalization `s.replace("'", '"')` applied by the import engine
before calling `json.loads` (service.py lines 109, 149, 187, 203, 234, 259).
Both arguments are single characters, so the substring replace is a map. -/
def replaceQuotes (s : String) : String :=
  ⟨s.data.map (fun c => if c = sq then dq else c)⟩

/-- Python dict-literal construction: a later binding for the same key
overwrites the earlier one, keeping the earlier position. -/
def pyDictInsert (kvs : List (String × PyVal)) (k : String) (v : PyVal) :
    List (String × PyVal) :=
  if kvs.any (fun kv => kv.1 = k) then
    kvs.map (fun kv => if kv.1 = k then (k, v) else kv)
  else kvs ++ [(k, v)]

/-- Characters of a string scanned until the closing quote `q`; fails at end
of input (unterminated string).  The embedded grammar has no escape
sequences. -/
def spanUntil (q : Char) : List Char → Option (List Char × List Char)
  | [] => none
  | c :: cs =>
      if c = q then some ([], cs)
      else (spanUntil q cs).map (fun p => (c :: p.1, p.2))

/-- Leading whitespace removed. -/
def skipWs : List Char → List Char
  | [] => []
  | c :: cs => if c = ' ' ∨ c = Char.ofNat 10 ∨ c = Char.ofNat 9 then skipWs cs else c :: cs

/-- Digits consumed into an accumulator. -/
def takeDigits (acc : Nat) : List Char → Nat × List Char
  | [] => (acc, [])
  | c :: cs =>
      if c.isDigit then takeDigits (acc * 10 + (c.toNat - 48)) cs else (acc, c :: cs)

/- Recursive-descent parser for the embedded Python/JSON value grammar.
`qs` is the set of admissible string delimiters (double quote only for JSON,
single or double for Python literals).  `parseVal` parses one value and
returns the unconsumed remainder; `parseListTail` parses the part of a list
after the opening bracket, `parseDictTail` the part of a dict after the
opening brace.  Fuel only bounds recursion depth; `mkFuel` below always
supplies enough. -/
mutual
def parseVal (qs : List Char) : Nat → List Char → Option (PyVal × List Char)
  | 0, _ => none
  | fuel + 1, input =>
      match skipWs input with
      | [] => none
      | c :: cs =>
          if c ∈ qs then
            (spanUntil c cs).map (fun p => (PyVal.vstr ⟨p.1⟩, p.2))
          else if c = lbk then
            parseListTail qs fuel (skipWs cs) true []
          else if c = lbr then
            parseDictTail qs fuel (skipWs cs) true []
          else if c = mns then
            match cs with
            | d :: ds =>
                if d.isDigit then
                  let p := takeDigits 0 (d :: ds)
                  some (PyVal.vint (-(p.1 : Int)), p.2)
                else none
            | [] => none
          else if c.isDigit then
            let p := takeDigits 0 (c :: cs)
            some (PyVal.vint (p.1 : Int), p.2)
          else none
def parseListTail (qs : List Char) : Nat → List Char → Bool → List PyVal →
    Option (PyVal × List Char)
  | 0, _, _, _ => none
  | _ + 1, [], _, _ => none
  | fuel + 1, c :: cs, isFirst, acc =>
      if c = rbk then some (PyVal.vlist acc.reverse, cs)
      else
        match
          if isFirst then some (c :: cs)
          else if c = cma then some (skipWs cs) else none
        with
        | none => none
        | some rest =>
            match parseVal qs fuel rest with
            | none => none
            | some (v, rest2) => parseListTail qs fuel (skipWs rest2) false (v :: acc)
def parseDictTail (qs : List Char) : Nat → List Char → Bool → List (String × PyVal) →
    Option (PyVal × List Char)
  | 0, _, _, _ => none
  | _ + 1, [], _, _ => none
  | fuel + 1, c :: cs, isFirst, acc =>
      if c = rbr then some (PyVal.vdict acc, cs)
      else
        match
          if isFirst then some (c :: cs)
          else if c = cma then some (skipWs cs) else none
        with
        | none => none
        | some rest =>
            match rest with
            | [] => none
            | k :: ks =>
                if k ∈ qs then
                  match spanUntil k ks with
                  | none => none
                  | some (keyChars, rest2) =>
                      match skipWs rest2 with
                      | [] => none
                      | c2 :: cs2 =>
                          if c2 = cln then
                            match parseVal qs fuel (skipWs cs2) with
                            | none => none
                            | some (v, rest3) =>
                                parseDictTail qs fuel (skipWs rest3) false
                                  (pyDictInsert acc ⟨keyChars⟩ v)
                          else none
                else none
end

/-- Fuel that always suffices for `parseVal`: each level of recursion consumes
at least one character of the remaining input every two steps. -/
def mkFuel (s : String) : Nat := 4 * (s.length + 1)

/-- A full-string parse: one value surrounded by optional whitespace,
nothing left over (as `json.loads` and `ast.literal_eval` demand). -/
def parseFull (qs : List Char) (s : String) : Option PyVal :=
  match parseVal qs (mkFuel s) s.data with
  | none => none
  | some (v, rest) => if skipWs rest = [] then some v else none

/-- The behaviour of `json.loads` on the embedded grammar: strings are
delimited by double quotes only. -/
def json_loads (s : String) : Option PyVal := parseFull [dq] s

/-- The behaviour of `ast.literal_eval` on the embedded grammar: strings are
delimited by single or double quotes. -/
def literal_eval (s : String) : Option PyVal := parseFull [dq, sq] s

/-- The quote-normalized JSON parse `json.loads(s.replace("'", '"'))`, the
single strategy the import engine applies to most serialized fields. -/
def json_loads_qn (s : String) : Option PyVal := json_loads (replaceQuotes s)

/-- Python `str()` of a value, used for `residue_id=str(ligand.get("ligand_id", ""))`
and for the f-string binding key.  Container values are rendered with a fixed
placeholder; the pipeline only ever formats strings and numbers here. -/
def pyToString : PyVal → String
  | .vstr s => s
  | .vint n => toString n
  | .vlist _ => "<list>"
  | .vdict _ => "<dict>"

/-- Python `len()`: defined on strings, lists and dicts; a `TypeError`
(modelled as `none`) on numbers. -/
def pyLen : PyVal → Option Nat
  | .vstr s => some s.length
  | .vlist xs => some xs.length
  | .vdict kvs => some kvs.length
  | .vint _ => none

/-- Python subscription `v[i]` with a numeric index: a one-character string
for strings, the element for lists, an exception (`none`) for dicts (the
embedded dicts are string-keyed) and numbers. -/
def pyIndex : PyVal → Nat → Option PyVal
  | .vstr s, i => (s.data[i]?).map (fun c => PyVal.vstr (String.singleton c))
  | .vlist xs, i => xs[i]?
  | .vdict _, _ => none
  | .vint _, _ => none

/-- Python truthiness, as in `if binding_metrics and ...` (service.py 292). -/
def pyTruthy : PyVal → Bool
  | .vstr s => !s.isEmpty
  | .vint n => n != 0
  | .vlist xs => !xs.isEmpty
  | .vdict kvs => !kvs.isEmpty

/-- Python `k in v` for a string key.  For dicts this is key containment.
For the other shapes the engine would either get `False` or raise and skip
the remaining ligands of the row; both are modelled as `false` (a raise here
can only happen on a malformed `binding_metrics` value, where the net effect
on the store is the same: no binding data attached). -/
def pyHasKey : PyVal → String → Bool
  | .vdict kvs, k => kvs.any (fun kv => kv.1 = k)
  | _, _ => false

/-- Dict lookup `v[k]`, `none` when the key is absent or `v` is not a dict. -/
def pyDictGet : PyVal → String → Option PyVal
  | .vdict kvs, k => List.lookup k kvs
  | _, _ => none

/-- Python `d.get(k, dflt)` on a dict. -/
def dGet (d : List (String × PyVal)) (k : String) (dflt : PyVal) : PyVal :=
  (List.lookup k d).getD dflt

/-- Python `d.get(k)` on a dict (default `None`). -/
def dGetOpt (d : List (String × PyVal)) (k : String) : Option PyVal :=
  List.lookup k d

/-- Python `for x in v`: lists iterate elements, dicts iterate keys, strings
iterate one-character strings, numbers raise at once (the raise is caught by
the surrounding handler at service.py 305 before any ligand is added, hence
the empty list). -/
def pyIter : PyVal → List PyVal
  | .vlist xs => xs
  | .vdict kvs => kvs.map (fun kv => PyVal.vstr kv.1)
  | .vstr s => s.data.map (fun c => PyVal.vstr (String.singleton c))
  | .vint _ => []

/-- One ligand row of the store (`Ligand` in models.py, the columns written
by the import engine).  `binding_data` is the attribute assigned at
service.py 302; the mapped table has no such column, so it lives only on the
in-memory record — the model keeps it as a field of the record. -/
structure LigandRow where
  protein_id : Nat
  residue_name : PyVal
  chain_id : PyVal
  residue_id : String
  num_atoms : PyVal
  center_x : PyVal
  center_y : PyVal
  center_z : PyVal
  smiles : PyVal
  inchi : PyVal
  molecular_weight : Option PyVal
  logp : Option PyVal
  h_donors : Option PyVal
  h_acceptors : Option PyVal
  rotatable_bonds : Option PyVal
  tpsa : Option PyVal
  binding_data : Option PyVal
deriving DecidableEq

/-- One structure row of the store (`Protein` in models.py, the columns
the engine touches, plus the category membership of the many-to-many
association and the transient `exp_conditions` attribute set at
service.py 209). -/
structure ProteinRec where
  id : Nat
  pdb_id : String
  title : String
  description : String
  resolution : Option PyVal
  experiment_type : PyVal
  num_chains : Int
  chain_data : PyVal
  status : String
  categories : List PyVal
  exp_conditions : Option PyVal
deriving DecidableEq

/-- The relational store: structure rows, ligand rows, the category table
(identified by their natural key `name`), and the id autoincrement counter. -/
structure DB where
  proteins : List ProteinRec
  ligands : List LigandRow
  categories : List PyVal
  nextId : Nat
deriving DecidableEq

/-- One CSV row of the enhancement artifact.  A field is `none` when the
column is missing or the cell is NA (`pd.notna` false); for the `chains`
field the source stores the NA float itself, which no claim observes, so NA
is folded into absence there too. -/
structure Row where
  pdb_id : String
  chains : Option String
  experimental_quality : Option String
  num_chains : Option Int
  status : Option String
  protein_families : Option String
  binding_metrics : Option String
  experimental_conditions : Option String
  ligands : Option String
  enhanced_ligands : Option String
deriving DecidableEq

/-- Chains parse on the create path (service.py 106-112): one
quote-normalized JSON attempt, empty dict on failure or absence. -/
def parseChainsField : Option String → PyVal
  | none => .vdict []
  | some s => (json_loads_qn s).getD (.vdict [])

/-- Family-tag parse (service.py 144-156): one quote-normalized JSON attempt;
an unparseable string becomes the single-element list of the raw string; a
parsed non-list is wrapped into a singleton list. -/
def parseFamiliesField (s : String) : List PyVal :=
  match json_loads_qn s with
  | none => [.vstr s]
  | some (.vlist xs) => xs
  | some v => [v]

/-- Binding-metrics parse (service.py 182-194): one quote-normalized JSON
attempt, empty dict on failure or absence. -/
def parseBindingMetricsField : Option String → PyVal
  | none => .vdict []
  | some s => (json_loads_qn s).getD (.vdict [])

/-- Experimental-conditions parse (service.py 200-213): one quote-normalized
JSON attempt; on failure the attribute assignment is skipped. -/
def parseExpConditionsField (s : String) : Option PyVal := json_loads_qn s

/-- Ligand-list parse (service.py 230-243): quote-normalized JSON first, then
`ast.literal_eval`, empty list if both fail. -/
def parseLigandsField (s : String) : PyVal :=
  match json_loads_qn s with
  | some v => v
  | none => (literal_eval s).getD (.vlist [])

/-- Ligand centroid handling (service.py 253-268): absent key gives
`[0, 0, 0]`; a string cell gets one quote-normalized JSON attempt and — the
exception being caught before the fallback assignment — keeps the raw string
on failure; any other cell is used as is. -/
def centerValue : Option PyVal → PyVal
  | none => .vlist [.vint 0, .vint 0, .vint 0]
  | some (.vstr s) =>
      match json_loads_qn s with
      | some v => v
      | none => .vstr s
  | some v => v

/-- Binding-metric association for one ligand (service.py 291-302): only when
the parsed metrics are truthy and have a `ligand_binding` key is the single
candidate key `"{chain_id}_{ligand_id}"` looked up inside that sub-mapping. -/
def attachBinding (bm : PyVal) (chainId ligandId : PyVal) : Option PyVal :=
  if pyTruthy bm && pyHasKey bm "ligand_binding" then
    let key := pyToString chainId ++ "_" ++ pyToString ligandId
    match pyDictGet bm "ligand_binding" with
    | some lb => if pyHasKey lb key then pyDictGet lb key else none
    | none => none
  else none

/-- The three stored centroid coordinates, mirroring
`center[i] if len(center) > i else 0` (service.py 277-279): `none` when
`len` or a subscript raises. -/
def centerTriple (center : PyVal) : Option (PyVal × PyVal × PyVal) :=
  match pyLen center with
  | none => none
  | some n =>
      let ix : Nat → Option PyVal := fun i =>
        if i < n then pyIndex center i else some (.vint 0)
      match ix 0, ix 1, ix 2 with
      | some cx, some cy, some cz => some (cx, cy, cz)
      | _, _, _ => none

/-- One ligand entry turned into a ligand row (service.py 252-304).  A
non-dict entry, or an entry whose center survives as something on which
`len` or the subscripts raise, yields `none`: the exception handler at
service.py 305 then skips the remaining entries of this row. -/
def buildLigand (pid : Nat) (bm : PyVal) : PyVal → Option LigandRow
  | .vdict d =>
      match centerTriple (centerValue (dGetOpt d "center")) with
      | none => none
      | some (cx, cy, cz) =>
          let chainId := dGet d "chain_id" (.vstr "")
          let ligandId := dGet d "ligand_id" (.vstr "")
          some
            { protein_id := pid
              residue_name := dGet d "residue_name" (.vstr "")
              chain_id := chainId
              residue_id := pyToString ligandId
              num_atoms := dGet d "num_atoms" (.vint 0)
              center_x := cx
              center_y := cy
              center_z := cz
              smiles := dGet d "smiles" (.vstr "")
              inchi := dGet d "inchi" (.vstr "")
              molecular_weight := dGetOpt d "molecular_weight"
              logp := dGetOpt d "logp"
              h_donors := dGetOpt d "h_donors"
              h_acceptors := dGetOpt d "h_acceptors"
              rotatable_bonds := dGetOpt d "rotatable_bonds"
              tpsa := dGetOpt d "tpsa"
              binding_data := attachBinding bm chainId ligandId }
  | _ => none

/-- The `for ligand in ligands_data` loop (service.py 252-304): rows are
added in order until the first entry that raises; the handler at 305 then
abandons the remaining entries (already-added rows stay in the session). -/
def addLigands (pid : Nat) (bm : PyVal) : List PyVal → List LigandRow
  | [] => []
  | e :: es =>
      match buildLigand pid bm e with
      | some l => l :: addLigands pid bm es
      | none => []

/-- In-place mutation of the structure row(s) with the given id. -/
def updateProteins (db : DB) (pid : Nat) (f : ProteinRec → ProteinRec) : DB :=
  { db with proteins := db.proteins.map (fun p => if p.id = pid then f p else p) }

/-- One iteration of the family loop (service.py 159-175): the category row
is created lazily by name, then appended to the structure membership when
not already a member. -/
def addFamily (pid : Nat) (db : DB) (fam : PyVal) : DB :=
  let db1 :=
    if fam ∈ db.categories then db else { db with categories := db.categories ++ [fam] }
  updateProteins db1 pid
    (fun p => if fam ∈ p.categories then p else { p with categories := p.categories ++ [fam] })

/-- The whole family loop over the parsed tag list. -/
def addFamilies (db : DB) (pid : Nat) (fams : List PyVal) : DB :=
  fams.foldl (addFamily pid) db

/-- Field selection for the ligand list (service.py 216-225): the enhanced
column is preferred when present. -/
def ligandFieldOf (row : Row) : Option String :=
  match row.enhanced_ligands, row.ligands with
  | some e, _ => some e
  | none, some l => some l
  | none, none => none

/-- The parsed family-tag list of a row (empty when the column is absent). -/
def newTags (row : Row) : List PyVal :=
  match row.protein_families with
  | none => []
  | some s => parseFamiliesField s

/-- The structure row built on the create path (service.py 104-139). -/
def newProtein (db : DB) (row : Row) : ProteinRec :=
  let chains_data := parseChainsField row.chains
  let exp_quality : List (String × PyVal) :=
    match row.experimental_quality with
    | some q => [("quality_level", PyVal.vstr q)]
    | none => []
  { id := db.nextId
    pdb_id := row.pdb_id
    title := "Structure " ++ row.pdb_id
    description := "Enhanced structure " ++ row.pdb_id ++ " from categorization pipeline"
    resolution := if exp_quality.isEmpty then none else List.lookup "resolution" exp_quality
    experiment_type := (List.lookup "structure_method" exp_quality).getD (.vstr "")
    num_chains := row.num_chains.getD 0
    chain_data := chains_data
    status := row.status.getD ""
    categories := []
    exp_conditions := none }

/-- The per-row body of `import_enhanced_structures` (service.py 92-306):
lookup, create-or-update, category reconciliation, binding-metrics parse,
experimental conditions, ligand replacement.  Returns the new store and
whether the row took the update path. -/
def processRow (db : DB) (row : Row) : DB × Bool :=
  let found := db.proteins.find? (fun p => p.pdb_id == row.pdb_id)
  let step1 : DB × Nat × Bool :=
    match found with
    | some p => (db, p.id, true)
    | none =>
        ({ db with proteins := db.proteins ++ [newProtein db row], nextId := db.nextId + 1 },
          db.nextId, false)
  let db1 := step1.1
  let pid := step1.2.1
  let wasUpdate := step1.2.2
  let db2 :=
    match row.protein_families with
    | none => db1
    | some fs => addFamilies db1 pid (parseFamiliesField fs)
  let bm := parseBindingMetricsField row.binding_metrics
  let db3 :=
    match row.experimental_conditions with
    | none => db2
    | some s =>
        match parseExpConditionsField s with
        | some v => updateProteins db2 pid (fun p => { p with exp_conditions := some v })
        | none => db2
  match ligandFieldOf row with
  | none => (db3, wasUpdate)
  | some s =>
      let entries := pyIter (parseLigandsField s)
      let base :=
        if wasUpdate then
          { db3 with ligands := db3.ligands.filter (fun l => l.protein_id != pid) }
        else db3
      ({ base with ligands := base.ligands ++ addLigands pid bm entries }, wasUpdate)

/-- Result of one batch import: success flag, the committed store, the two
counters of the summary, and the trace of commit points (each entry is the
create+update count at the moment of a commit). -/
structure BatchResult where
  ok : Bool
  committed : DB
  imported : Nat
  updated : Nat
  commits : List Nat
deriving DecidableEq

/-- The batch loop of `import_enhanced_structures` (service.py 92-325) with
the transaction made explicit: `committed` is the store as of the last
commit, `working` the session view.  `failAt (some k)` injects an uncaught
persistence exception at row `k` (0-based): the handler at service.py
320-323 rolls the open segment back and returns failure. -/
def importLoop (committed working : DB) (imported updated : Nat) (commits : List Nat) :
    List Row → Option Nat → BatchResult
  | [], _ => ⟨true, working, imported, updated, commits ++ [imported + updated]⟩
  | r :: rs, failAt =>
      match failAt with
      | some 0 => ⟨false, committed, imported, updated, commits⟩
      | _ =>
          let step := processRow working r
          let imported2 := if step.2 then imported else imported + 1
          let updated2 := if step.2 then updated + 1 else updated
          if (imported2 + updated2) % 10 = 0 then
            importLoop step.1 step.1 imported2 updated2 (commits ++ [imported2 + updated2]) rs
              (failAt.map (· - 1))
          else
            importLoop committed step.1 imported2 updated2 commits rs (failAt.map (· - 1))

/-- The import engine on an in-memory batch (the CSV reading and the final
log line are I/O shims around this loop). -/
def import_enhanced_structures (db : DB) (rows : List Row) (failAt : Option Nat) :
    BatchResult :=
  importLoop db db 0 0 [] rows failAt

/-- Sequential application of the per-row body, ignoring transactions. -/
def applyRows (db : DB) (rows : List Row) : DB :=
  rows.foldl (fun d r => (processRow d r).1) db

/-- The structure rows recorded for a `pdb_id`. -/
def structuresFor (db : DB) (pdb : String) : List ProteinRec :=
  db.proteins.filter (fun p => p.pdb_id == pdb)

/-- The ligand rows owned by a structure row. -/
def ligandsFor (db : DB) (pid : Nat) : List LigandRow :=
  db.ligands.filter (fun l => l.protein_id == pid)

/-! Categorizer embedding (backend/src/categorization/__init__.py).
Coordinates are rationals; every comparison of a Euclidean distance against
the 5.0 Angstrom cutoff is carried out on squared distances against 25,
which preserves it exactly.  Recorded and averaged distances are therefore
kept in squared form; no claim observes the numerical value itself. -/

/-- An atom of the parsed structure (collaborator toolkit). -/
structure Atom where
  x : ℚ
  y : ℚ
  z : ℚ
deriving DecidableEq

/-- A residue of the parsed structure: `hetflag` is `residue.id[0]` (a single
space for standard polymer residues), `resseq` is `residue.id[1]`. -/
structure ResidueM where
  hetflag : String
  resseq : Int
  resname : String
  atoms : List Atom
deriving DecidableEq

/-- A chain of the parsed structure. -/
structure ChainM where
  cid : String
  residues : List ResidueM
deriving DecidableEq

/-- The first model of a parsed structure (`structure[0]`). -/
structure ModelM where
  chains : List ChainM
deriving DecidableEq

/-- Squared Euclidean distance between two atoms. -/
def distSq (a b : Atom) : ℚ :=
  (a.x - b.x) ^ 2 + (a.y - b.y) ^ 2 + (a.z - b.z) ^ 2

/-- The inner `for lig_atom in ligand_atoms` scan for one residue atom
(categorization/__init__.py 124-134): the first ligand atom strictly within
the cutoff yields an entry carrying that pair distance, and the `break`
leaves this innermost loop only. -/
def firstHitDistSq (ra : Atom) : List Atom → Option ℚ
  | [] => none
  | l :: ls => if distSq ra l < 25 then some (distSq ra l) else firstHitDistSq ra ls

/-- One recorded contact entry (the dict appended at
categorization/__init__.py 126-133), distance kept squared. -/
structure ContactEntry where
  chain_id : String
  residue_id : Int
  residue_name : String
  dist_sq : ℚ
deriving DecidableEq

/-- Entries contributed by one standard residue: one entry per residue atom
that has some ligand atom strictly within the cutoff. -/
def residueContacts (cid : String) (r : ResidueM) (lig : List Atom) : List ContactEntry :=
  r.atoms.filterMap fun a =>
    (firstHitDistSq a lig).map fun d2 => ⟨cid, r.resseq, r.resname, d2⟩

/-- The full contact scan (categorization/__init__.py 120-134): every chain,
every residue with the standard-residue hetero flag, in iteration order. -/
def bindingResidues (m : ModelM) (lig : List Atom) : List ContactEntry :=
  m.chains.flatMap fun c =>
    c.residues.flatMap fun r =>
      if r.hetflag = " " then residueContacts c.cid r lig else []

/-- The fixed polar-residue set of `_calculate_pocket_polarity`. -/
def polarResidueNames : List String :=
  ["ARG", "LYS", "ASP", "GLU", "GLN", "ASN", "HIS", "SER", "THR", "TYR"]

/-- Pocket polarity (categorization/__init__.py 152-185): polar entry count
over entry count, and 0 for an empty contact list. -/
def calculate_pocket_polarity (binding_residues : List ContactEntry) : ℚ :=
  if binding_residues.isEmpty then 0
  else
    ((binding_residues.filter fun r => polarResidueNames.contains r.residue_name).length : ℚ) /
      (binding_residues.length : ℚ)

/-- The derived binding-site payload (categorization/__init__.py 137-145);
the mean is over the recorded (squared) distances, `none` for no contacts. -/
structure BindingSiteRec where
  num_binding_residues : Nat
  binding_residues : List ContactEntry
  avg_dist_sq : Option ℚ
  pocket_polarity : ℚ
deriving DecidableEq

/-- Binding-site extraction (categorization/__init__.py 94-150).  Everything
runs inside one exception handler: a non-dict ligand payload, a missing key,
chain or residue yields the empty dict, modelled as `none`. -/
def extract_binding_site_info (struc : ModelM) (ligand_data : PyVal) :
    Option BindingSiteRec :=
  match ligand_data with
  | .vdict d =>
      match dGetOpt d "chain_id", dGetOpt d "ligand_id" with
      | some (.vstr cid), some (.vint lid) =>
          match struc.chains.find? (fun c => c.cid == cid) with
          | none => none
          | some chain =>
              match chain.residues.find? (fun r => r.resseq == lid) with
              | none => none
              | some ligRes =>
                  let brs := bindingResidues struc ligRes.atoms
                  some
                    { num_binding_residues := brs.length
                      binding_residues := brs
                      avg_dist_sq :=
                        if brs.isEmpty then none
                        else some (((brs.map fun r => r.dist_sq).sum) / (brs.length : ℚ))
                      pocket_polarity := calculate_pocket_polarity brs }
      | _, _ => none
  | _ => none

/-- Collaborator metadata mapping for one structure (section 6 of the data
contract: `title, keywords, resolution, r_free, experimental_method,
temperature, binding_data, related_structures`). -/
structure BindingDataEntry where
  comp_id : Option String
  entry_type : Option String
  value : Option PyVal
  unit : Option String
deriving DecidableEq

/-- Metadata carried per `pdb_id`. -/
structure Metadata where
  title : Option String
  keywords : List String
  resolution : Option ℚ
  r_free : Option ℚ
  experimental_method : Option String
  temperature : Option ℚ
  binding_data : Option (List BindingDataEntry)
  related_structures : Option PyVal
deriving DecidableEq

/-- The `{}` default used by the batch loop for unknown ids. -/
def emptyMetadata : Metadata := ⟨none, [], none, none, none, none, none, none⟩

/-- The fixed family taxonomy of the categorizer constructor. -/
def protein_families_table : List (String × List String) :=
  [("kinase", ["kinase", "phosphorylase", "phosphotransferase"]),
   ("protease", ["protease", "peptidase", "hydrolase"]),
   ("gpcr", ["receptor", "gpcr", "g-protein", "transmembrane"]),
   ("nuclear_receptor", ["nuclear", "hormone", "receptor"]),
   ("oxidoreductase", ["dehydrogenase", "reductase", "oxidase"])]

/-- Substring containment of `needle` in `hay` (Python `in` on strings). -/
def strContains (hay needle : String) : Bool :=
  decide (needle.data <:+: hay.data)

/-- The keyword loop for one family (categorization/__init__.py 80-90): the
first keyword matching the lowered title or any keyword-list entry emits the
family and breaks. -/
def familyMatches (descr : String) (classification : List String) : List String → Bool
  | [] => false
  | kw :: rest =>
      if strContains descr kw then true
      else if classification.any (fun item => strContains item.toLower kw) then true
      else familyMatches descr classification rest

/-- Duplicate removal, keeping first occurrences.  The source uses
`list(set(categories))`, whose order is interpreter-dependent; the model
fixes first-occurrence order, and no claim observes the order. -/
def dedupKeepFirst (l : List String) : List String :=
  l.foldl (fun acc s => if s ∈ acc then acc else acc ++ [s]) []

/-- Protein-family classification (categorization/__init__.py 62-92). -/
def categorize_by_protein_family (md : Metadata) : List String :=
  dedupKeepFirst
    ((protein_families_table.filter fun fk =>
        familyMatches (md.title.getD "").toLower md.keywords fk.2).map fun fk => fk.1)

/-- Experimental-quality classification (categorization/__init__.py
241-261).  The guard is Python truthiness of the two floats: `None` and `0.0`
both fail it. -/
def categorize_by_experimental_quality (md : Metadata) : String :=
  let truthy : Option ℚ → Bool := fun x =>
    match x with
    | none => false
    | some v => v != 0
  if truthy md.resolution && truthy md.r_free then
    let r := md.resolution.getD 0
    let f := md.r_free.getD 0
    if r < (3 / 2 : ℚ) ∧ f < (1 / 5 : ℚ) then "high_quality"
    else if r < (5 / 2 : ℚ) ∧ f < (1 / 4 : ℚ) then "good_quality"
    else "moderate_quality"
  else "unknown_quality"

/-- Collaborator descriptor functions over an abstract molecule type (the
chemistry toolkit is out of scope; its outputs are opaque inputs here). -/
structure ChemDescriptors (Mol : Type) where
  MolWt : Mol → ℚ
  MolLogP : Mol → ℚ
  NumHDonors : Mol → Int
  NumHAcceptors : Mol → Int
  NumRotatableBonds : Mol → Int
  RingCount : Mol → Int
  qed : Mol → ℚ
  TPSA : Mol → ℚ

/-- Result of the ligand property calculator: a full descriptor record, or
the tagged failure dict `{"error": ...}`. -/
inductive PropResult where
  | props (molecular_weight logp : ℚ) (h_donors h_acceptors rotatable_bonds rings : Int)
      (qed tpsa : ℚ) (lipinski_violations : Nat) (is_druglike : Bool)
  | error (msg : String)
deriving DecidableEq

/-- The Lipinski violation count (categorization/__init__.py 211-220). -/
def lipinskiViolations {Mol : Type} (dsc : ChemDescriptors Mol) (mol : Mol) : Nat :=
  (if dsc.MolWt mol > 500 then 1 else 0) + (if dsc.NumHDonors mol > 5 then 1 else 0) +
    (if dsc.NumHAcceptors mol > 10 then 1 else 0) + (if dsc.MolLogP mol > 5 then 1 else 0)

/-- Ligand property calculation (categorization/__init__.py 187-239).  The
collaborator parse failing (`MolFromSmiles` returning no molecule) yields the
fixed tagged failure of line 200.  Descriptor evaluation itself is total in
the model, so the generic handler of lines 237-239 has no counterpart. -/
def calculate_ligand_properties {Mol : Type} (MolFromSmiles : String → Option Mol)
    (dsc : ChemDescriptors Mol) (ligand_smiles : String) : PropResult :=
  match MolFromSmiles ligand_smiles with
  | none => .error "Invalid SMILES string"
  | some mol =>
      .props (dsc.MolWt mol) (dsc.MolLogP mol) (dsc.NumHDonors mol) (dsc.NumHAcceptors mol)
        (dsc.NumRotatableBonds mol) (dsc.RingCount mol) (dsc.qed mol) (dsc.TPSA mol)
        (lipinskiViolations dsc mol)
        (dsc.qed mol > (1 / 2 : ℚ) && lipinskiViolations dsc mol ≤ 1)

/-- One row of the processed-structures base table consumed by the
enhancement orchestrator: the natural key, the serialized ligand list that
line 328 `eval`s, and the untouched remaining columns. -/
structure BaseRecord where
  pdb_id : String
  ligands : String
  extra : List (String × PyVal)
deriving DecidableEq

set_option synthInstance.maxSize 1024 in
/-- The enriched record assembled by `enhance_structure_data`. -/
structure Enriched where
  base : BaseRecord
  title : String
  protein_families : List String
  experimental_quality : String
  binding_metrics : Option (List (Option String × List (Option String × (Option PyVal × Option String))))
  related_structures : Option PyVal
  experimental_conditions : Option String × Option ℚ × Option ℚ
  enhanced_ligands : Option (List (PyVal × Option BindingSiteRec))
deriving DecidableEq

/-- Association-list insert with Python dict semantics (overwrite keeps the
original position). -/
def aInsert {α β : Type} [DecidableEq α] (m : List (α × β)) (k : α) (v : β) :
    List (α × β) :=
  if m.any (fun kv => kv.1 = k) then m.map (fun kv => if kv.1 = k then (k, v) else kv)
  else m ++ [(k, v)]

/-- The binding-metrics fold (categorization/__init__.py 294-307): entries
keyed first by compound id, then by metric type, value and unit retained. -/
def foldBindingMetrics (entries : List BindingDataEntry) :
    List (Option String × List (Option String × (Option PyVal × Option String))) :=
  entries.foldl
    (fun acc e =>
      let prev := ((acc.find? fun kv => kv.1 = e.comp_id).map Prod.snd).getD []
      aInsert acc e.comp_id (aInsert prev e.entry_type (e.value, e.unit)))
    []

/-- Outcome of enhancing one structure: the enriched record, the empty
record of an absent base row (logged, not raised), or an uncaught exception
escaping `enhance_structure_data`. -/
inductive EnhanceResult where
  | ok (r : Enriched)
  | empty
  | crash (msg : String)
deriving DecidableEq

/-- The `enhanced_ligands` loop (categorization/__init__.py 334-337): each
entry gets a binding site via the guarded extractor; merging `{**ligand,...}`
with a non-dict entry raises, which nothing catches. -/
def enhanceLigands (m : ModelM) : List PyVal → Except String (List (PyVal × Option BindingSiteRec))
  | [] => .ok []
  | e :: es =>
      match e with
      | .vdict d =>
          match enhanceLigands m es with
          | .error msg => .error msg
          | .ok rest => .ok ((PyVal.vdict d, extract_binding_site_info m (PyVal.vdict d)) :: rest)
      | _ => .error "TypeError: ligand entry is not a mapping"

/-- Python `for x in v` where nothing catches a `TypeError` (enhance path):
numbers are not iterable. -/
def pyIterE : PyVal → Except String (List PyVal)
  | .vint _ => .error "TypeError: not iterable"
  | v => .ok (pyIter v)

/-- Enhancement of one structure (categorization/__init__.py 263-341).  An
absent base row returns the empty record.  When the structure file exists,
the serialized ligand list is `eval`-ed (line 328) — on repr-ed literals this
coincides with `ast.literal_eval`; a string it cannot parse raises, and the
raise escapes the function, as does iterating a non-sequence or merging a
non-dict entry. -/
def enhance_structure_data (table : List BaseRecord)
    (structure_files : String → Option ModelM) (pdb_id : String) (md : Metadata) :
    EnhanceResult :=
  match table.find? (fun r => r.pdb_id == pdb_id) with
  | none => .empty
  | some base =>
      let ligandsPart : Except String (Option (List (PyVal × Option BindingSiteRec))) :=
        match structure_files pdb_id with
        | none => .ok none
        | some m =>
            match literal_eval base.ligands with
            | none => .error "eval: unparseable ligand serialization"
            | some v =>
                match pyIterE v with
                | .error msg => .error msg
                | .ok entries =>
                    match enhanceLigands m entries with
                    | .error msg => .error msg
                    | .ok el => .ok (some el)
      match ligandsPart with
      | .error msg => .crash msg
      | .ok el =>
          .ok
            { base := base
              title := md.title.getD ""
              protein_families := categorize_by_protein_family md
              experimental_quality := categorize_by_experimental_quality md
              binding_metrics := md.binding_data.map foldBindingMetrics
              related_structures := md.related_structures
              experimental_conditions := (md.experimental_method, md.temperature, md.resolution)
              enhanced_ligands := el }

/-- The batch loop of `batch_enhance_structures` (categorization/__init__.py
343-370): results are appended per id; an uncaught exception from one call
aborts the loop (and so the whole batch, nothing being persisted). -/
def batchLoop (table : List BaseRecord) (structure_files : String → Option ModelM)
    (metadata_dict : List (String × Metadata)) (acc : List (Option Enriched)) :
    List String → Except String (List (Option Enriched))
  | [] => .ok acc
  | pid :: rest =>
      match
        enhance_structure_data table structure_files pid
          ((List.lookup pid.toUpper metadata_dict).getD emptyMetadata)
      with
      | .crash msg => .error msg
      | .ok r => batchLoop table structure_files metadata_dict (acc ++ [some r]) rest
      | .empty => batchLoop table structure_files metadata_dict (acc ++ [none]) rest

/-- Batch enhancement over a list of ids (the trailing CSV write is an I/O
side effect outside the store model). -/
def batch_enhance_structures (table : List BaseRecord)
    (structure_files : String → Option ModelM) (metadata_dict : List (String × Metadata))
    (pdb_ids : List String) : Except String (List (Option Enriched)) :=
  batchLoop table structure_files metadata_dict [] pdb_ids

/-- The per-id outcome as an entry of the batch table, defined only when the
call does not raise. -/
def enhanceEntry (table : List BaseRecord) (structure_files : String → Option ModelM)
    (metadata_dict : List (String × Metadata)) (pid : String) : Option Enriched :=
  match
    enhance_structure_data table structure_files pid
      ((List.lookup pid.toUpper metadata_dict).getD emptyMetadata)
  with
  | .ok r => some r
  | _ => none

/-! Spec-side definitions.  Each of the following is written from the
wording of the specification, to be compared against the embedded source
behaviour. -/

/-- First-success combination of an ordered list of parser strategies (the
multi-strategy contract of spec section 4.6 / design note on dynamic
multi-format parsing). -/
def firstSuccess (strats : List (String → Option PyVal)) (s : String) : Option PyVal :=
  match strats with
  | [] => none
  | f :: fs =>
      match f s with
      | some v => some v
      | none => firstSuccess fs s

/-- Modelled from the spec: the claimed three-strategy field parse — strict
JSON, then quote-normalized JSON, then language-literal parse, first success
wins. -/
def claimedCascade (s : String) : Option PyVal :=
  firstSuccess [json_loads, json_loads_qn, literal_eval] s

/-- Modelled from the spec: the claimed quality classifier — `unknown_quality`
exactly when an input is absent, otherwise the top-down tier chain. -/
def qualityTierClaimed (resolution r_free : Option ℚ) : String :=
  match resolution, r_free with
  | some r, some f =>
      if r < (3 / 2 : ℚ) ∧ f < (1 / 5 : ℚ) then "high_quality"
      else if r < (5 / 2 : ℚ) ∧ f < (1 / 4 : ℚ) then "good_quality"
      else "moderate_quality"
  | _, _ => "unknown_quality"

/-- The amended quality classifier: absent-or-zero inputs (Python falsy)
give `unknown_quality`, otherwise the top-down tier chain. -/
def qualityTierAmended (resolution r_free : Option ℚ) : String :=
  match resolution, r_free with
  | some r, some f =>
      if r = 0 ∨ f = 0 then "unknown_quality"
      else if r < (3 / 2 : ℚ) ∧ f < (1 / 5 : ℚ) then "high_quality"
      else if r < (5 / 2 : ℚ) ∧ f < (1 / 4 : ℚ) then "good_quality"
      else "moderate_quality"
  | _, _ => "unknown_quality"

/-- Modelled from the spec: the claimed binding-metric association — the
three candidate keys tried against the top level of the metrics mapping and
then against its nested `ligand_binding` sub-mapping, first resolution
wins. -/
def claimedBindingLookup (bm : PyVal) (chain_id residue_id residue_name : String) :
    Option PyVal :=
  let keys := [chain_id ++ "_" ++ residue_id, residue_name, chain_id ++ ":" ++ residue_name]
  match keys.filterMap (fun k => pyDictGet bm k) with
  | v :: _ => some v
  | [] =>
      match pyDictGet bm "ligand_binding" with
      | some lb => (keys.filterMap (fun k => pyDictGet lb k)).head?
      | none => none

/-- The single-key association the import engine actually performs, phrased
on the stored ligand fields: the one candidate key
`"{chain_id}_{ligand_id}"`, looked up only inside the nested
`ligand_binding` sub-mapping of a truthy metrics value. -/
def singleKeyLookup (bm : PyVal) (key : String) : Option PyVal :=
  if pyTruthy bm && pyHasKey bm "ligand_binding" then
    match pyDictGet bm "ligand_binding" with
    | some lb => if pyHasKey lb key then pyDictGet lb key else none
    | none => none
  else none

/-! Proofs. -/

/-- Claim C7 counterexample: at `resolution = 0.0, r_free = 0.1` both inputs
are present, so the claimed classifier returns `high_quality`
(`0 < 1.5 ∧ 0.1 < 0.20`), but the code returns `unknown_quality`: the guard
is Python truthiness, and `0.0` is falsy. -/
theorem C7_counterexample :
    (Metadata.mk none [] (some 0) (some (1 / 10 : ℚ)) none none none none).resolution ≠ none ∧
    (Metadata.mk none [] (some 0) (some (1 / 10 : ℚ)) none none none none).r_free ≠ none ∧
    qualityTierClaimed (some 0) (some (1 / 10 : ℚ)) = "high_quality" ∧
    categorize_by_experimental_quality
        (Metadata.mk none [] (some 0) (some (1 / 10 : ℚ)) none none none none) =
      "unknown_quality" := by
  refine ⟨by simp, by simp, by norm_num [qualityTierClaimed], by
    norm_num [categorize_by_experimental_quality]⟩

/-- Claim C7 amended: the experimental-quality classifier returns
`unknown_quality` exactly when at least one input is absent or zero (falsy);
when both are present and nonzero it applies, top-down, first match winning:
`resolution < 1.5 ∧ r_free < 0.20 → high_quality`, else
`resolution < 2.5 ∧ r_free < 0.25 → good_quality`, else
`moderate_quality`. -/
theorem C7_quality_truthiness :
    ∀ md : Metadata,
      categorize_by_experimental_quality md = qualityTierAmended md.resolution md.r_free := by
  intro md
  unfold categorize_by_experimental_quality qualityTierAmended
  cases hr : md.resolution with
  | none => simp
  | some r =>
      cases hf : md.r_free with
      | none => simp
      | some f =>
          by_cases hr0 : r = 0 <;> by_cases hf0 : f = 0 <;>
            simp [hr0, hf0, bne_iff_ne]

/-- Claim C8 counterexample: two different connectivity strings the
collaborator cannot parse produce the very same failure value, so the
returned tagged failure does not carry the offending input (the message is
the fixed literal of categorization/__init__.py line 200). -/
theorem C8_counterexample :
    @calculate_ligand_properties Unit (fun _ => none)
        ⟨fun _ => 0, fun _ => 0, fun _ => 0, fun _ => 0, fun _ => 0, fun _ => 0,
          fun _ => 0, fun _ => 0⟩ "C1CC1X" =
      @calculate_ligand_properties Unit (fun _ => none)
        ⟨fun _ => 0, fun _ => 0, fun _ => 0, fun _ => 0, fun _ => 0, fun _ => 0,
          fun _ => 0, fun _ => 0⟩ "QQ" ∧
    "C1CC1X" ≠ "QQ" ∧
    @calculate_ligand_properties Unit (fun _ => none)
        ⟨fun _ => 0, fun _ => 0, fun _ => 0, fun _ => 0, fun _ => 0, fun _ => 0,
          fun _ => 0, fun _ => 0⟩ "C1CC1X" =
      PropResult.error "Invalid SMILES string" := by
  exact ⟨rfl, by decide, rfl⟩

/-- Claim C8 amended: on any connectivity string the collaborator toolkit
cannot parse, the ligand property calculator returns the tagged failure value
with the fixed message `"Invalid SMILES string"` — a value, not an
exception, and distinct by construction from every successful descriptor
record (in particular from an all-zero one) — but it does not carry the
offending input. -/
theorem C8_parse_failure_fixed_tag :
    ∀ (Mol : Type) (MolFromSmiles : String → Option Mol) (dsc : ChemDescriptors Mol)
      (s : String),
      MolFromSmiles s = none →
      @calculate_ligand_properties Mol MolFromSmiles dsc s =
        PropResult.error "Invalid SMILES string" := by
  intro Mol MolFromSmiles dsc s h
  unfold calculate_ligand_properties
  rw [h]

/-- Witness: the amended C8 theorem applied at a concrete unparseable
input. -/
theorem C8_parse_failure_fixed_tag_witness :
    @calculate_ligand_properties Unit (fun _ => none)
        ⟨fun _ => 0, fun _ => 0, fun _ => 0, fun _ => 0, fun _ => 0, fun _ => 0,
          fun _ => 0, fun _ => 0⟩ "X" =
      PropResult.error "Invalid SMILES string" :=
  C8_parse_failure_fixed_tag Unit (fun _ => none) _ "X" rfl

/-! Structure lemmas for the import engine: the per-row body decomposed into
stages, and the category reconciliation characterized. -/

/-- The effect of one family-loop iteration on one structure row. -/
def famStep (pid : Nat) (fam : PyVal) (q : ProteinRec) : ProteinRec :=
  if q.id = pid then
    if fam ∈ q.categories then q else { q with categories := q.categories ++ [fam] }
  else q

/-- The family loop as a pointwise transformation of one structure row. -/
def addFamsP (pid : Nat) (fams : List PyVal) (p : ProteinRec) : ProteinRec :=
  fams.foldl (fun q fam => famStep pid fam q) p

/-- The family loop's effect on the category table. -/
def catFold (cats fams : List PyVal) : List PyVal :=
  fams.foldl (fun cs fam => if fam ∈ cs then cs else cs ++ [fam]) cats

/-- The experimental-conditions stage of the per-row body. -/
def expStage (row : Row) (pid : Nat) (db : DB) : DB :=
  match row.experimental_conditions with
  | none => db
  | some s =>
      match parseExpConditionsField s with
      | some v => updateProteins db pid (fun q => { q with exp_conditions := some v })
      | none => db

/-- The parsed binding metrics of a row. -/
def rowBM (row : Row) : PyVal := parseBindingMetricsField row.binding_metrics

/-- The ligand stage of the per-row body. -/
def ligStage (row : Row) (pid : Nat) (wasUpdate : Bool) (db : DB) : DB :=
  match ligandFieldOf row with
  | none => db
  | some s =>
      let entries := pyIter (parseLigandsField s)
      let base :=
        if wasUpdate then
          { db with ligands := db.ligands.filter (fun l => l.protein_id != pid) }
        else db
      { base with ligands := base.ligands ++ addLigands pid (rowBM row) entries }

lemma addFamily_eq (pid : Nat) (f : PyVal) (db : DB) :
    addFamily pid db f =
      ⟨db.proteins.map (famStep pid f), db.ligands,
        if f ∈ db.categories then db.categories else db.categories ++ [f], db.nextId⟩ := by
  simp only [addFamily]
  by_cases hf : f ∈ db.categories
  · rw [if_pos hf, if_pos hf]; rfl
  · rw [if_neg hf, if_neg hf]; rfl

lemma map_addFamsP_nil (pid : Nat) (l : List ProteinRec) :
    l.map (addFamsP pid []) = l := by
  induction l with
  | nil => rfl
  | cons a as ih =>
      rw [List.map_cons, ih]
      rfl

lemma addFamilies_eq (fams : List PyVal) (db : DB) (pid : Nat) :
    addFamilies db pid fams =
      ⟨db.proteins.map (addFamsP pid fams), db.ligands, catFold db.categories fams,
        db.nextId⟩ := by
  induction fams generalizing db with
  | nil =>
      cases db with
      | mk ps ls cs n =>
          simp only [addFamilies, List.foldl_nil, catFold, map_addFamsP_nil]
  | cons f fs ih =>
      have h1 : addFamilies db pid (f :: fs) = addFamilies (addFamily pid db f) pid fs := rfl
      rw [h1, ih, addFamily_eq, List.map_map]
      rfl

lemma famStep_id (pid : Nat) (fam : PyVal) (q : ProteinRec) :
    (famStep pid fam q).id = q.id := by
  unfold famStep
  split
  · split <;> rfl
  · rfl

lemma famStep_mem (pid : Nat) (f : PyVal) (q : ProteinRec) (c : PyVal) :
    c ∈ (famStep pid f q).categories ↔ c ∈ q.categories ∨ (q.id = pid ∧ c = f) := by
  unfold famStep
  by_cases hid : q.id = pid
  · by_cases hf : f ∈ q.categories
    · simp only [hid, if_true, hf, true_and]
      exact ⟨Or.inl, fun h => h.elim id (fun he => he ▸ hf)⟩
    · simp only [hid, if_true, hf, if_false, List.mem_append, List.mem_singleton, true_and]
  · simp [hid]

lemma addFamsP_shape (pid : Nat) (fams : List PyVal) (p : ProteinRec) :
    ∃ cs, addFamsP pid fams p = { p with categories := cs } := by
  induction fams generalizing p with
  | nil => exact ⟨p.categories, rfl⟩
  | cons f fs ih =>
      have hstep : addFamsP pid (f :: fs) p = addFamsP pid fs (famStep pid f p) := rfl
      obtain ⟨cs, hcs⟩ := ih (famStep pid f p)
      refine ⟨cs, ?_⟩
      rw [hstep, hcs]
      unfold famStep
      split
      · split <;> rfl
      · rfl

lemma addFamsP_mem (pid : Nat) (fams : List PyVal) (p : ProteinRec) (c : PyVal) :
    c ∈ (addFamsP pid fams p).categories ↔
      c ∈ p.categories ∨ (p.id = pid ∧ c ∈ fams) := by
  induction fams generalizing p with
  | nil => simp [addFamsP]
  | cons f fs ih =>
      have hstep : addFamsP pid (f :: fs) p = addFamsP pid fs (famStep pid f p) := rfl
      rw [hstep, ih (famStep pid f p), famStep_id, famStep_mem]
      simp only [List.mem_cons]
      tauto

lemma addFamsP_fixed (pid : Nat) (fams : List PyVal) (p : ProteinRec)
    (h : ∀ f ∈ fams, p.id = pid → f ∈ p.categories) :
    addFamsP pid fams p = p := by
  induction fams with
  | nil => rfl
  | cons f fs ih =>
      have hstep : addFamsP pid (f :: fs) p = addFamsP pid fs (famStep pid f p) := rfl
      have hfs : famStep pid f p = p := by
        unfold famStep
        by_cases hid : p.id = pid
        · simp [hid, h f (List.mem_cons_self f fs) hid]
        · simp [hid]
      rw [hstep, hfs]
      exact ih (fun g hg hid => h g (List.mem_cons_of_mem f hg) hid)

lemma catFold_mem (cats fams : List PyVal) (c : PyVal) :
    c ∈ catFold cats fams ↔ c ∈ cats ∨ c ∈ fams := by
  induction fams generalizing cats with
  | nil => simp [catFold]
  | cons f fs ih =>
      have hstep : catFold cats (f :: fs) =
          catFold (if f ∈ cats then cats else cats ++ [f]) fs := rfl
      rw [hstep]
      by_cases hf : f ∈ cats
      · rw [if_pos hf, ih]
        simp only [List.mem_cons]
        constructor
        · rintro (h | h)
          · exact Or.inl h
          · exact Or.inr (Or.inr h)
        · rintro (h | h | h)
          · exact Or.inl h
          · exact Or.inl (h ▸ hf)
          · exact Or.inr h
      · rw [if_neg hf, ih]
        simp only [List.mem_append, List.mem_singleton, List.mem_cons]
        tauto

lemma catFold_fixed (cats fams : List PyVal) (h : ∀ f ∈ fams, f ∈ cats) :
    catFold cats fams = cats := by
  induction fams with
  | nil => rfl
  | cons f fs ih =>
      have hstep : catFold cats (f :: fs) =
          catFold (if f ∈ cats then cats else cats ++ [f]) fs := rfl
      rw [hstep, if_pos (h f (List.mem_cons_self f fs))]
      exact ih (fun g hg => h g (List.mem_cons_of_mem f hg))

lemma processRow_update (db : DB) (row : Row) (p : ProteinRec)
    (h : db.proteins.find? (fun q => q.pdb_id == row.pdb_id) = some p) :
    processRow db row =
      (ligStage row p.id true (expStage row p.id (addFamilies db p.id (newTags row))),
        true) := by
  have hfam :
      (match row.protein_families with
        | none => db
        | some fs => addFamilies db p.id (parseFamiliesField fs)) =
        addFamilies db p.id (newTags row) := by
    cases hpf : row.protein_families
    · simp [newTags, hpf, addFamilies]
    · simp [newTags, hpf]
  have hexp :
      ∀ d : DB,
        (match row.experimental_conditions with
          | none => d
          | some s =>
              match parseExpConditionsField s with
              | some v => updateProteins d p.id (fun q => { q with exp_conditions := some v })
              | none => d) =
          expStage row p.id d := by
    intro d
    unfold expStage
    cases row.experimental_conditions
    · rfl
    · rename_i s
      cases parseExpConditionsField s <;> rfl
  simp only [processRow, h]
  rw [hfam, hexp]
  cases hlf : ligandFieldOf row
  · simp [ligStage, hlf]
  · simp [ligStage, hlf, rowBM]

lemma processRow_create (db : DB) (row : Row)
    (h : db.proteins.find? (fun q => q.pdb_id == row.pdb_id) = none) :
    processRow db row =
      (ligStage row db.nextId false
        (expStage row db.nextId
          (addFamilies
            ⟨db.proteins ++ [newProtein db row], db.ligands, db.categories, db.nextId + 1⟩
            db.nextId (newTags row))),
        false) := by
  have hfam :
      ∀ d : DB,
        (match row.protein_families with
          | none => d
          | some fs => addFamilies d db.nextId (parseFamiliesField fs)) =
          addFamilies d db.nextId (newTags row) := by
    intro d
    cases hpf : row.protein_families
    · simp [newTags, hpf, addFamilies]
    · simp [newTags, hpf]
  have hexp :
      ∀ d : DB,
        (match row.experimental_conditions with
          | none => d
          | some s =>
              match parseExpConditionsField s with
              | some v =>
                  updateProteins d db.nextId (fun q => { q with exp_conditions := some v })
              | none => d) =
          expStage row db.nextId d := by
    intro d
    unfold expStage
    cases row.experimental_conditions
    · rfl
    · rename_i s
      cases parseExpConditionsField s <;> rfl
  simp only [processRow, h]
  rw [hexp]
  rw [hfam]
  cases hlf : ligandFieldOf row
  · simp [ligStage, hlf]
  · simp [ligStage, hlf, rowBM]

lemma ligStage_proteins (row : Row) (pid : Nat) (b : Bool) (db : DB) :
    (ligStage row pid b db).proteins = db.proteins := by
  unfold ligStage
  cases ligandFieldOf row with
  | none => rfl
  | some s => cases b <;> rfl

lemma ligStage_categories (row : Row) (pid : Nat) (b : Bool) (db : DB) :
    (ligStage row pid b db).categories = db.categories := by
  unfold ligStage
  cases ligandFieldOf row with
  | none => rfl
  | some s => cases b <;> rfl

lemma ligStage_nextId (row : Row) (pid : Nat) (b : Bool) (db : DB) :
    (ligStage row pid b db).nextId = db.nextId := by
  unfold ligStage
  cases ligandFieldOf row with
  | none => rfl
  | some s => cases b <;> rfl

lemma expStage_cases (row : Row) (pid : Nat) (db : DB) :
    expStage row pid db = db ∨
      ∃ v, expStage row pid db =
        updateProteins db pid (fun q => { q with exp_conditions := some v }) := by
  unfold expStage
  cases hec : row.experimental_conditions with
  | none => exact Or.inl rfl
  | some s =>
      cases hpv : parseExpConditionsField s with
      | none => exact Or.inl (by simp [hpv])
      | some v => exact Or.inr ⟨v, by simp [hpv]⟩

lemma expStage_ligands (row : Row) (pid : Nat) (db : DB) :
    (expStage row pid db).ligands = db.ligands := by
  rcases expStage_cases row pid db with h | ⟨v, h⟩ <;> rw [h] <;> rfl

lemma expStage_categories (row : Row) (pid : Nat) (db : DB) :
    (expStage row pid db).categories = db.categories := by
  rcases expStage_cases row pid db with h | ⟨v, h⟩ <;> rw [h] <;> rfl

lemma expStage_nextId (row : Row) (pid : Nat) (db : DB) :
    (expStage row pid db).nextId = db.nextId := by
  rcases expStage_cases row pid db with h | ⟨v, h⟩ <;> rw [h] <;> rfl

/-- The scalar columns of a structure row (everything the update path is not
supposed to touch): id, pdb_id, title, description, resolution,
experiment_type, num_chains, chain_data, status. -/
def scalarsOf (p : ProteinRec) :
    Nat × String × String × String × Option PyVal × PyVal × Int × PyVal × String :=
  (p.id, p.pdb_id, p.title, p.description, p.resolution, p.experiment_type, p.num_chains,
    p.chain_data, p.status)

lemma addFamsP_scalars (pid : Nat) (fams : List PyVal) (p : ProteinRec) :
    scalarsOf (addFamsP pid fams p) = scalarsOf p := by
  obtain ⟨cs, h⟩ := addFamsP_shape pid fams p
  rw [h]
  rfl

lemma addFamsP_id (pid : Nat) (fams : List PyVal) (p : ProteinRec) :
    (addFamsP pid fams p).id = p.id := by
  obtain ⟨cs, h⟩ := addFamsP_shape pid fams p
  rw [h]

lemma addFamsP_pdb (pid : Nat) (fams : List PyVal) (p : ProteinRec) :
    (addFamsP pid fams p).pdb_id = p.pdb_id := by
  obtain ⟨cs, h⟩ := addFamsP_shape pid fams p
  rw [h]

lemma addFamsP_not_target (pid : Nat) (fams : List PyVal) (p : ProteinRec)
    (h : p.id ≠ pid) : addFamsP pid fams p = p :=
  addFamsP_fixed pid fams p (fun _ _ hid => absurd hid h)

lemma expStage_proteins_pointwise (row : Row) (pid : Nat) (d : DB) :
    ∃ g : ProteinRec → ProteinRec,
      (expStage row pid d).proteins = d.proteins.map g ∧
      (∀ q, (g q).categories = q.categories) ∧
      (∀ q, scalarsOf (g q) = scalarsOf q) ∧
      (∀ q, q.id ≠ pid → g q = q) := by
  rcases expStage_cases row pid d with h | ⟨v, h⟩
  · exact ⟨id, by rw [h, List.map_id], fun q => rfl, fun q => rfl, fun q _ => rfl⟩
  · refine ⟨fun q => if q.id = pid then { q with exp_conditions := some v } else q,
      by rw [h]; rfl, ?_, ?_, ?_⟩
    · intro q; by_cases hq : q.id = pid <;> simp [hq]
    · intro q; by_cases hq : q.id = pid <;> simp [hq, scalarsOf]
    · intro q hq; simp [hq]

lemma map_map_id {α : Type} (f g : α → α) (l : List α)
    (h : ∀ a ∈ l, g (f a) = a) : (l.map f).map g = l := by
  induction l with
  | nil => rfl
  | cons a as ih =>
      simp only [List.map_cons]
      rw [h a (List.mem_cons_self a as), ih (fun b hb => h b (List.mem_cons_of_mem a hb))]

lemma forall₂_map_map {α : Type} (R : α → α → Prop) (f g : α → α) (l : List α)
    (h : ∀ a ∈ l, R a (g (f a))) : List.Forall₂ R l ((l.map f).map g) := by
  rw [List.map_map]
  induction l with
  | nil => exact List.Forall₂.nil
  | cons a as ih =>
      exact List.Forall₂.cons (h a (List.mem_cons_self a as))
        (ih (fun b hb => h b (List.mem_cons_of_mem a hb)))

/-- A store with one structure row `1AAA` (id 0) already carrying category
`OLD`, used by the C2 counterexample. -/
def dbC2 : DB :=
  ⟨[⟨0, "1AAA", "t", "d", none, .vstr "", 0, .vdict [], "", [.vstr "OLD"], none⟩],
    [], [.vstr "OLD"], 1⟩

/-- The re-import row for the C2 counterexample: same pdb_id, parsed family
tag list `["NEW"]`, which does not contain `OLD`. -/
def rowC2 : Row :=
  ⟨"1AAA", none, none, none, none, some "[\"NEW\"]", none, none, none, none⟩

/-- Claim C2 counterexample: on the update path the prior category `OLD`,
absent from the row's tag list `["NEW"]`, is NOT dropped — the membership
after processing is `[OLD, NEW]`, the union, not the replacement `[NEW]`
the claim demands. -/
theorem C2_counterexample :
    ((processRow dbC2 rowC2).1).proteins.map (fun p => p.categories) =
        [[.vstr "OLD", .vstr "NEW"]] ∧
      PyVal.vstr "OLD" ∉ newTags rowC2 := by
  exact ⟨rfl, by decide⟩

/-- Claim C2 amended: category membership is a union on BOTH paths.  On the
update path every prior category is kept and the parsed tags are added; on
the create path the fresh record's membership is exactly the parsed tag
list (union with its empty prior membership). -/
theorem C2_categories_union :
    ∀ (db : DB) (row : Row),
      (∀ p : ProteinRec,
          db.proteins.find? (fun q => q.pdb_id == row.pdb_id) = some p →
          List.Forall₂
            (fun a b => ∀ c : PyVal,
              c ∈ b.categories ↔ c ∈ a.categories ∨ (a.id = p.id ∧ c ∈ newTags row))
            db.proteins ((processRow db row).1).proteins) ∧
      (db.proteins.find? (fun q => q.pdb_id == row.pdb_id) = none →
        (∀ q ∈ db.proteins, q.id < db.nextId) →
        ∃ pnew,
          ((processRow db row).1).proteins = db.proteins ++ [pnew] ∧
          ∀ c : PyVal, c ∈ pnew.categories ↔ c ∈ newTags row) := by
  intro db row
  constructor
  · intro p hfind
    rw [processRow_update db row p hfind]
    simp only [ligStage_proteins]
    obtain ⟨g, hg, hgcat, hgsc, hgoff⟩ :=
      expStage_proteins_pointwise row p.id (addFamilies db p.id (newTags row))
    rw [hg, addFamilies_eq]
    simp only
    apply forall₂_map_map
    intro a _ c
    rw [hgcat, addFamsP_mem]
  · intro hfind hfresh
    rw [processRow_create db row hfind]
    simp only [ligStage_proteins]
    obtain ⟨g, hg, hgcat, hgsc, hgoff⟩ :=
      expStage_proteins_pointwise row db.nextId
        (addFamilies ⟨db.proteins ++ [newProtein db row], db.ligands, db.categories,
          db.nextId + 1⟩ db.nextId (newTags row))
    rw [hg, addFamilies_eq]
    simp only [List.map_append, List.map_cons, List.map_nil]
    refine ⟨g (addFamsP db.nextId (newTags row) (newProtein db row)), ?_, ?_⟩
    · have hold : ∀ q ∈ db.proteins,
          g (addFamsP db.nextId (newTags row) q) = q := by
        intro q hq
        have hne : q.id ≠ db.nextId := Nat.ne_of_lt (hfresh q hq)
        rw [addFamsP_not_target _ _ _ hne, hgoff q hne]
      rw [map_map_id (addFamsP db.nextId (newTags row)) g db.proteins hold]
    · intro c
      rw [hgcat, addFamsP_mem]
      have : (newProtein db row).categories = [] := rfl
      have hid : (newProtein db row).id = db.nextId := rfl
      rw [this, hid]
      simp

/-- Witness for the amended C2 theorem: both paths applied at concrete
stores and rows and evaluated. -/
theorem C2_categories_union_witness :
    List.Forall₂
      (fun a b => ∀ c : PyVal,
        c ∈ b.categories ↔ c ∈ a.categories ∨ (a.id = 0 ∧ c ∈ newTags rowC2))
      dbC2.proteins ((processRow dbC2 rowC2).1).proteins ∧
    ∃ pnew,
      ((processRow (DB.mk [] [] [] 0) rowC2).1).proteins = [] ++ [pnew] ∧
      ∀ c : PyVal, c ∈ pnew.categories ↔ c ∈ newTags rowC2 := by
  constructor
  · have h := (C2_categories_union dbC2 rowC2).1
      (⟨0, "1AAA", "t", "d", none, .vstr "", 0, .vdict [], "", [.vstr "OLD"], none⟩) rfl
    exact h
  · exact (C2_categories_union (DB.mk [] [] [] 0) rowC2).2 rfl (by simp)

/-- Claim C10: on the update path the per-row body leaves every structure
row's scalar columns (id, pdb_id, title, description, resolution,
experiment_type, num_chains, chain_data, status) untouched, allocates no new
id, and adds no structure row; only category membership, the transient
experimental-conditions attribute, and the ligand table change. -/
theorem C10_update_preserves_scalars :
    ∀ (db : DB) (row : Row) (p : ProteinRec),
      db.proteins.find? (fun q => q.pdb_id == row.pdb_id) = some p →
      (processRow db row).2 = true ∧
      List.Forall₂ (fun a b => scalarsOf b = scalarsOf a) db.proteins
        ((processRow db row).1).proteins ∧
      ((processRow db row).1).nextId = db.nextId := by
  intro db row p hfind
  rw [processRow_update db row p hfind]
  refine ⟨rfl, ?_, ?_⟩
  · simp only [ligStage_proteins]
    obtain ⟨g, hg, hgcat, hgsc, hgoff⟩ :=
      expStage_proteins_pointwise row p.id (addFamilies db p.id (newTags row))
    rw [hg, addFamilies_eq]
    simp only
    apply forall₂_map_map
    intro a _
    rw [hgsc, addFamsP_scalars]
  · rw [ligStage_nextId, expStage_nextId, addFamilies_eq]

/-- Witness for C10: the update path applied at a concrete store and row. -/
theorem C10_update_preserves_scalars_witness :
    (processRow dbC2 rowC2).2 = true ∧
    List.Forall₂ (fun a b => scalarsOf b = scalarsOf a) dbC2.proteins
      ((processRow dbC2 rowC2).1).proteins ∧
    ((processRow dbC2 rowC2).1).nextId = dbC2.nextId :=
  C10_update_preserves_scalars dbC2 rowC2
    (⟨0, "1AAA", "t", "d", none, .vstr "", 0, .vdict [], "", [.vstr "OLD"], none⟩) rfl

lemma scalars_pdb {a b : ProteinRec} (h : scalarsOf b = scalarsOf a) :
    b.pdb_id = a.pdb_id :=
  congrArg (fun t => t.2.1) h

lemma processRow_keeps_record (db : DB) (row : Row) :
    1 ≤ (structuresFor ((processRow db row).1) row.pdb_id).length := by
  cases hfind : db.proteins.find? (fun q => q.pdb_id == row.pdb_id) with
  | some p =>
      rw [processRow_update db row p hfind]
      unfold structuresFor
      rw [ligStage_proteins]
      obtain ⟨g, hg, hgcat, hgsc, hgoff⟩ :=
        expStage_proteins_pointwise row p.id (addFamilies db p.id (newTags row))
      rw [hg, addFamilies_eq]
      have hpmem : p ∈ db.proteins := List.mem_of_find?_eq_some hfind
      have hppdb := List.find?_some hfind
      have hmem : g (addFamsP p.id (newTags row) p) ∈
          ((db.proteins.map (addFamsP p.id (newTags row))).map g) := by
        exact List.mem_map_of_mem g (List.mem_map_of_mem _ hpmem)
      have hpdb : (g (addFamsP p.id (newTags row) p)).pdb_id = row.pdb_id := by
        have h1 := scalars_pdb (hgsc (addFamsP p.id (newTags row) p))
        rw [h1, addFamsP_pdb]
        exact eq_of_beq hppdb
      have : g (addFamsP p.id (newTags row) p) ∈
          (((db.proteins.map (addFamsP p.id (newTags row))).map g).filter
            (fun q => q.pdb_id == row.pdb_id)) := by
        refine List.mem_filter.mpr ⟨hmem, ?_⟩
        simp [hpdb]
      exact List.length_pos_of_mem this
  | none =>
      rw [processRow_create db row hfind]
      unfold structuresFor
      rw [ligStage_proteins]
      obtain ⟨g, hg, hgcat, hgsc, hgoff⟩ :=
        expStage_proteins_pointwise row db.nextId
          (addFamilies ⟨db.proteins ++ [newProtein db row], db.ligands, db.categories,
            db.nextId + 1⟩ db.nextId (newTags row))
      rw [hg, addFamilies_eq]
      have hnew : newProtein db row ∈ db.proteins ++ [newProtein db row] := by
        simp
      have hmem : g (addFamsP db.nextId (newTags row) (newProtein db row)) ∈
          (((db.proteins ++ [newProtein db row]).map (addFamsP db.nextId (newTags row))).map
            g) :=
        List.mem_map_of_mem g (List.mem_map_of_mem _ hnew)
      have hpdb : (g (addFamsP db.nextId (newTags row) (newProtein db row))).pdb_id =
          row.pdb_id := by
        have h1 := scalars_pdb (hgsc (addFamsP db.nextId (newTags row) (newProtein db row)))
        rw [h1, addFamsP_pdb]
        rfl
      have : g (addFamsP db.nextId (newTags row) (newProtein db row)) ∈
          ((((db.proteins ++ [newProtein db row]).map
              (addFamsP db.nextId (newTags row))).map g).filter
            (fun q => q.pdb_id == row.pdb_id)) := by
        refine List.mem_filter.mpr ⟨hmem, ?_⟩
        simp [hpdb]
      exact List.length_pos_of_mem this

/-- The distinguishing input for claim C3: the serialized dict
`{"a": "x'"}` — valid strict JSON (apostrophe inside a double-quoted
string), destroyed by the quote-normalization step. -/
def c3input : String :=
  String.mk [lbr, dq, 'a', dq, cln, ' ', dq, 'x', sq, dq, rbr]

/-- Claim C3 counterexample: on `{"a": "x'"}` the claimed
strict-JSON-first cascade succeeds, but the import engine treats the field
as absent: the only strategy it applies to the chains / binding-metrics /
experimental-conditions fields is the quote-normalized JSON parse, which
turns the input into invalid `{"a": "x""}`. -/
theorem C3_counterexample :
    claimedCascade c3input = some (.vdict [("a", .vstr (String.mk ['x', sq]))]) ∧
    parseChainsField (some c3input) = .vdict [] ∧
    parseBindingMetricsField (some c3input) = .vdict [] ∧
    parseExpConditionsField c3input = none := by
  exact ⟨rfl, rfl, rfl, rfl⟩

/-- Claim C3 amended: each serialized field is parsed by a first-success
cascade, but NOT the claimed strict-JSON / quote-normalized / literal
triple.  The chains, binding-metrics and experimental-conditions fields use
the single quote-normalized JSON strategy; the ligand list uses
quote-normalized JSON and then the language-literal parse; the family-tag
field uses quote-normalized JSON with a bare-string (singleton) fallback;
a string-valued centroid uses quote-normalized JSON and on failure keeps the
raw string rather than a zero default.  Parse failures yield the empty
default for the other fields, and a parse failure is never fatal to the
row: the structure row is still created or updated. -/
theorem C3_field_parse_strategies :
    (∀ s : String,
        parseChainsField (some s) = (firstSuccess [json_loads_qn] s).getD (.vdict []) ∧
        parseBindingMetricsField (some s) =
          (firstSuccess [json_loads_qn] s).getD (.vdict []) ∧
        parseExpConditionsField s = firstSuccess [json_loads_qn] s ∧
        parseLigandsField s =
          (match firstSuccess [json_loads_qn, literal_eval] s with
            | some v => v
            | none => .vlist []) ∧
        parseFamiliesField s =
          (match firstSuccess [json_loads_qn] s with
            | none => [.vstr s]
            | some (.vlist xs) => xs
            | some v => [v]) ∧
        centerValue (some (.vstr s)) = (firstSuccess [json_loads_qn] s).getD (.vstr s)) ∧
    ∀ (db : DB) (row : Row),
      1 ≤ (structuresFor ((processRow db row).1) row.pdb_id).length := by
  constructor
  · intro s
    refine ⟨?_, ?_, ?_, ?_, ?_, ?_⟩
    · cases h : json_loads_qn s <;> simp [parseChainsField, firstSuccess, h]
    · cases h : json_loads_qn s <;> simp [parseBindingMetricsField, firstSuccess, h]
    · cases h : json_loads_qn s <;> simp [parseExpConditionsField, firstSuccess, h]
    · cases h1 : json_loads_qn s with
      | some v => simp [parseLigandsField, firstSuccess, h1]
      | none =>
          cases h2 : literal_eval s <;> simp [parseLigandsField, firstSuccess, h1, h2]
    · cases h : json_loads_qn s with
      | none => simp [parseFamiliesField, firstSuccess, h]
      | some v => cases v <;> simp [parseFamiliesField, firstSuccess, h]
    · cases h : json_loads_qn s <;> simp [centerValue, firstSuccess, h]
  · exact processRow_keeps_record

/-- The commit points the checkpoint rule produces for `n` rows processed
after an initial create+update count of `s`: the counts `s+1 .. s+n` that
are multiples of 10. -/
def ckpts (s n : Nat) : List Nat :=
  (List.range n).filterMap fun i => if (s + i + 1) % 10 = 0 then some (s + i + 1) else none

lemma ckpts_zero (s : Nat) : ckpts s 0 = [] := rfl

lemma ckpts_succ (s n : Nat) :
    ckpts s (n + 1) = (if (s + 1) % 10 = 0 then [s + 1] else []) ++ ckpts (s + 1) n := by
  unfold ckpts
  rw [List.range_succ_eq_map, List.filterMap_cons, List.filterMap_map]
  have hf : ((fun i => if (s + i + 1) % 10 = 0 then some (s + i + 1) else none) ∘ Nat.succ) =
      (fun i => if (s + 1 + i + 1) % 10 = 0 then some (s + 1 + i + 1) else none) := by
    funext i
    have h : s + (i + 1) + 1 = s + 1 + i + 1 := by omega
    simp only [Function.comp, Nat.succ_eq_add_one, h]
  rw [hf]
  have h0 : s + 0 + 1 = s + 1 := by omega
  rw [h0]
  by_cases h10 : (s + 1) % 10 = 0
  · rw [if_pos h10, if_pos h10]
    rfl
  · rw [if_neg h10, if_neg h10]
    rfl

lemma applyRows_cons (db : DB) (r : Row) (rs : List Row) :
    applyRows db (r :: rs) = applyRows (processRow db r).1 rs := rfl

lemma importLoop_none :
    ∀ (rows : List Row) (committed working : DB) (im up : Nat) (tr : List Nat),
      ∃ i2 u2,
        importLoop committed working im up tr rows none =
          ⟨true, applyRows working rows, i2, u2,
            tr ++ ckpts (im + up) rows.length ++ [im + up + rows.length]⟩ ∧
        i2 + u2 = im + up + rows.length := by
  intro rows
  induction rows with
  | nil =>
      intro c w im up tr
      refine ⟨im, up, ?_, by simp⟩
      show (⟨true, w, im, up, tr ++ [im + up]⟩ : BatchResult) = _
      simp [applyRows, ckpts]
  | cons r rs ih =>
      intro c w im up tr
      have hunf : importLoop c w im up tr (r :: rs) none =
          (let step := processRow w r
           let i2 := if step.2 then im else im + 1
           let u2 := if step.2 then up + 1 else up
           if (i2 + u2) % 10 = 0 then
             importLoop step.1 step.1 i2 u2 (tr ++ [i2 + u2]) rs none
           else importLoop c step.1 i2 u2 tr rs none) := rfl
      have hsum1 : im + 1 + up = im + up + 1 := by omega
      have hsum2 : im + (up + 1) = im + up + 1 := by omega
      have hunf2 : importLoop c w im up tr (r :: rs) none =
          (if (im + up + 1) % 10 = 0 then
            importLoop (processRow w r).1 (processRow w r).1
              (if (processRow w r).2 then im else im + 1)
              (if (processRow w r).2 then up + 1 else up) (tr ++ [im + up + 1]) rs none
           else
            importLoop c (processRow w r).1 (if (processRow w r).2 then im else im + 1)
              (if (processRow w r).2 then up + 1 else up) tr rs none) := by
        rw [hunf]
        cases hb : (processRow w r).2 <;> simp [hb, hsum1, hsum2]
      rw [hunf2]
      have hcnt : (if (processRow w r).2 then im else im + 1) +
          (if (processRow w r).2 then up + 1 else up) = im + up + 1 := by
        cases hb : (processRow w r).2 <;> simp [hb] <;> omega
      by_cases h10 : (im + up + 1) % 10 = 0
      · rw [if_pos h10]
        obtain ⟨i2, u2, heq, hcount⟩ := ih (processRow w r).1 (processRow w r).1
          (if (processRow w r).2 then im else im + 1)
          (if (processRow w r).2 then up + 1 else up) (tr ++ [im + up + 1])
        rw [hcnt] at hcount
        refine ⟨i2, u2, ?_, by simp only [List.length_cons]; omega⟩
        rw [heq, hcnt, applyRows_cons, List.length_cons, ckpts_succ, if_pos h10]
        have hln : im + up + 1 + rs.length = im + up + (rs.length + 1) := by omega
        rw [hln]
        simp [List.append_assoc]
      · rw [if_neg h10]
        obtain ⟨i2, u2, heq, hcount⟩ := ih c (processRow w r).1
          (if (processRow w r).2 then im else im + 1)
          (if (processRow w r).2 then up + 1 else up) tr
        rw [hcnt] at hcount
        refine ⟨i2, u2, ?_, by simp only [List.length_cons]; omega⟩
        rw [heq, hcnt, applyRows_cons, List.length_cons, ckpts_succ, if_neg h10]
        have hln : im + up + 1 + rs.length = im + up + (rs.length + 1) := by omega
        rw [hln]
        simp

lemma importLoop_fail :
    ∀ (rows : List Row) (k : Nat) (committed working : DB) (im up : Nat) (tr : List Nat),
      k < rows.length →
      (importLoop committed working im up tr rows (some k)).ok = false ∧
      (importLoop committed working im up tr rows (some k)).committed =
        (if 1 ≤ k - (im + up + k) % 10
          then applyRows working (rows.take (k - (im + up + k) % 10))
          else committed) ∧
      (importLoop committed working im up tr rows (some k)).commits =
        tr ++ ckpts (im + up) k := by
  intro rows
  induction rows with
  | nil => intro k c w im up tr hk; exact absurd hk (by simp)
  | cons r rs ih =>
      intro k c w im up tr hk
      cases k with
      | zero =>
          have hunf : importLoop c w im up tr (r :: rs) (some 0) =
              ⟨false, c, im, up, tr⟩ := rfl
          rw [hunf]
          refine ⟨rfl, ?_, by simp [ckpts_zero]⟩
          have h0 : ¬(1 ≤ 0 - (im + up + 0) % 10) := by omega
          rw [if_neg h0]
      | succ k =>
          have hk2 : k < rs.length := by
            simpa using Nat.lt_of_succ_lt_succ hk
          have hsum1 : im + 1 + up = im + up + 1 := by omega
          have hsum2 : im + (up + 1) = im + up + 1 := by omega
          have hunf2 : importLoop c w im up tr (r :: rs) (some (k + 1)) =
              (if (im + up + 1) % 10 = 0 then
                importLoop (processRow w r).1 (processRow w r).1
                  (if (processRow w r).2 then im else im + 1)
                  (if (processRow w r).2 then up + 1 else up) (tr ++ [im + up + 1]) rs
                  (some k)
               else
                importLoop c (processRow w r).1 (if (processRow w r).2 then im else im + 1)
                  (if (processRow w r).2 then up + 1 else up) tr rs (some k)) := by
            show (let step := processRow w r
                  let i2 := if step.2 then im else im + 1
                  let u2 := if step.2 then up + 1 else up
                  if (i2 + u2) % 10 = 0 then
                    importLoop step.1 step.1 i2 u2 (tr ++ [i2 + u2]) rs
                      ((some (k + 1)).map (· - 1))
                  else importLoop c step.1 i2 u2 tr rs ((some (k + 1)).map (· - 1))) = _
            cases hb : (processRow w r).2 <;> simp [hb, hsum1, hsum2]
          rw [hunf2]
          have hcnt : (if (processRow w r).2 then im else im + 1) +
              (if (processRow w r).2 then up + 1 else up) = im + up + 1 := by
            cases hb : (processRow w r).2 <;> simp [hb] <;> omega
          by_cases h10 : (im + up + 1) % 10 = 0
          · rw [if_pos h10]
            obtain ⟨hok, hcom, htr⟩ := ih k (processRow w r).1 (processRow w r).1
              (if (processRow w r).2 then im else im + 1)
              (if (processRow w r).2 then up + 1 else up) (tr ++ [im + up + 1]) hk2
            rw [hcnt] at hcom htr
            refine ⟨hok, ?_, ?_⟩
            · rw [hcom]
              have ht : im + up + 1 + k = im + up + (k + 1) := by omega
              rw [ht]
              set t := (im + up + (k + 1)) % 10 with htdef
              by_cases h1 : 1 ≤ k - t
              · rw [if_pos h1]
                have h2 : 1 ≤ k + 1 - t := by omega
                rw [if_pos h2]
                have h3 : k + 1 - t = (k - t) + 1 := by omega
                rw [h3, List.take_succ_cons, applyRows_cons]
              · rw [if_neg h1]
                have hkt : k = t := by omega
                have h2 : 1 ≤ k + 1 - t := by omega
                rw [if_pos h2]
                have h3 : k + 1 - t = 1 := by omega
                rw [h3, List.take_succ_cons, List.take_zero, applyRows_cons]
                show (processRow w r).1 = applyRows (processRow w r).1 []
                rfl
            · rw [htr, ckpts_succ, if_pos h10]
              simp [List.append_assoc]
          · rw [if_neg h10]
            obtain ⟨hok, hcom, htr⟩ := ih k c (processRow w r).1
              (if (processRow w r).2 then im else im + 1)
              (if (processRow w r).2 then up + 1 else up) tr hk2
            rw [hcnt] at hcom htr
            refine ⟨hok, ?_, ?_⟩
            · rw [hcom]
              have ht : im + up + 1 + k = im + up + (k + 1) := by omega
              rw [ht]
              set t := (im + up + (k + 1)) % 10 with htdef
              by_cases h1 : 1 ≤ k - t
              · rw [if_pos h1]
                have h2 : 1 ≤ k + 1 - t := by omega
                rw [if_pos h2]
                have h3 : k + 1 - t = (k - t) + 1 := by omega
                rw [h3, List.take_succ_cons, applyRows_cons]
              · rw [if_neg h1]
                have hkt : ¬(1 ≤ k + 1 - t) := by omega
                rw [if_neg hkt]
            · rw [htr, ckpts_succ, if_neg h10]
              simp

/-- Claim C4: with no failure, the import commits exactly when the running
create+update count (which equals the number of rows processed) reaches a
multiple of 10 and once more at end of batch, and the committed store is the
result of processing every row.  With an uncaught persistence exception at
row `k` (0-based), the batch reports failure, the committed store is exactly
the prefix up to the last multiple-of-10 checkpoint (`10 * (k / 10)` rows) —
the open segment is rolled back, earlier checkpoints remain — and no commit
after that checkpoint is recorded. -/
theorem C4_commit_checkpoints :
    ∀ (db : DB) (rows : List Row),
      ((import_enhanced_structures db rows none).ok = true ∧
        (import_enhanced_structures db rows none).committed = applyRows db rows ∧
        (import_enhanced_structures db rows none).commits =
          ckpts 0 rows.length ++ [rows.length]) ∧
      ∀ k, k < rows.length →
        (import_enhanced_structures db rows (some k)).ok = false ∧
        (import_enhanced_structures db rows (some k)).committed =
          applyRows db (rows.take (10 * (k / 10))) ∧
        (import_enhanced_structures db rows (some k)).commits = ckpts 0 k := by
  intro db rows
  constructor
  · obtain ⟨i2, u2, heq, hcount⟩ := importLoop_none rows db db 0 0 []
    unfold import_enhanced_structures
    rw [heq]
    refine ⟨rfl, rfl, by simp⟩
  · intro k hk
    obtain ⟨hok, hcom, htr⟩ := importLoop_fail rows k db db 0 0 [] hk
    unfold import_enhanced_structures
    refine ⟨hok, ?_, by rw [htr]; simp⟩
    rw [hcom]
    have hmod : k - (0 + 0 + k) % 10 = 10 * (k / 10) := by omega
    rw [hmod]
    by_cases h1 : 1 ≤ 10 * (k / 10)
    · rw [if_pos h1]
    · rw [if_neg h1]
      have h0 : 10 * (k / 10) = 0 := by omega
      rw [h0, List.take_zero]
      rfl

/-- Witness for C4: a three-row batch with failure injected at row 2; the
last checkpoint before the failure is at zero rows, so the committed store
is the initial one and failure is reported. -/
theorem C4_commit_checkpoints_witness :
    (2 < ([⟨"A1", none, none, none, none, none, none, none, none, none⟩,
           ⟨"B2", none, none, none, none, none, none, none, none, none⟩,
           ⟨"C3", none, none, none, none, none, none, none, none, none⟩] : List Row).length) ∧
    (import_enhanced_structures (DB.mk [] [] [] 0)
        [⟨"A1", none, none, none, none, none, none, none, none, none⟩,
         ⟨"B2", none, none, none, none, none, none, none, none, none⟩,
         ⟨"C3", none, none, none, none, none, none, none, none, none⟩] (some 2)).ok =
      false ∧
    (import_enhanced_structures (DB.mk [] [] [] 0)
        [⟨"A1", none, none, none, none, none, none, none, none, none⟩,
         ⟨"B2", none, none, none, none, none, none, none, none, none⟩,
         ⟨"C3", none, none, none, none, none, none, none, none, none⟩] (some 2)).committed =
      applyRows (DB.mk [] [] [] 0)
        (([⟨"A1", none, none, none, none, none, none, none, none, none⟩,
           ⟨"B2", none, none, none, none, none, none, none, none, none⟩,
           ⟨"C3", none, none, none, none, none, none, none, none, none⟩] : List Row).take
          (10 * (2 / 10))) := by
  refine ⟨by decide, ?_, ?_⟩
  · exact (C4_commit_checkpoints (DB.mk [] [] [] 0) _).2 2 (by decide) |>.1
  · exact ((C4_commit_checkpoints (DB.mk [] [] [] 0) _).2 2 (by decide)).2.1

lemma buildLigand_fields (pid : Nat) (bm : PyVal) (e : PyVal) (l : LigandRow)
    (h : buildLigand pid bm e = some l) :
    l.protein_id = pid ∧
      l.binding_data = singleKeyLookup bm (pyToString l.chain_id ++ "_" ++ l.residue_id) := by
  cases e with
  | vstr s => exact absurd h (by simp [buildLigand])
  | vint n => exact absurd h (by simp [buildLigand])
  | vlist xs => exact absurd h (by simp [buildLigand])
  | vdict d =>
      simp only [buildLigand] at h
      cases hct : centerTriple (centerValue (dGetOpt d "center")) with
      | none => rw [hct] at h; exact absurd h (by simp)
      | some t =>
          obtain ⟨cx, cy, cz⟩ := t
          rw [hct] at h
          injection h with h
          subst h
          exact ⟨rfl, rfl⟩

lemma addLigands_fields (pid : Nat) (bm : PyVal) :
    ∀ (es : List PyVal) (l : LigandRow), l ∈ addLigands pid bm es →
      l.protein_id = pid ∧
        l.binding_data = singleKeyLookup bm (pyToString l.chain_id ++ "_" ++ l.residue_id) := by
  intro es
  induction es with
  | nil => intro l hl; exact absurd hl (by simp [addLigands])
  | cons e es ih =>
      intro l hl
      unfold addLigands at hl
      cases hb : buildLigand pid bm e with
      | none => rw [hb] at hl; exact absurd hl (by simp)
      | some l0 =>
          rw [hb] at hl
          rcases List.mem_cons.mp hl with h | h
          · subst h; exact buildLigand_fields pid bm e l hb
          · exact ih l h

lemma ligStage_ligands_cases (row : Row) (pid : Nat) (b : Bool) (d : DB) :
    (ligStage row pid b d).ligands = d.ligands ∨
      ∃ s, ligandFieldOf row = some s ∧
        (ligStage row pid b d).ligands =
          (if b then d.ligands.filter (fun l => l.protein_id != pid) else d.ligands) ++
            addLigands pid (rowBM row) (pyIter (parseLigandsField s)) := by
  unfold ligStage
  cases hlf : ligandFieldOf row with
  | none => exact Or.inl rfl
  | some s =>
      refine Or.inr ⟨s, rfl, ?_⟩
      cases b <;> rfl

/-- The row of the C6 counterexample: one ligand `GLC` in chain `A` with
ligand id 101, and a binding-metrics mapping keyed at top level by the bare
residue name — the claim's second candidate key. -/
def rowC6 : Row :=
  ⟨"2BBB", none, none, none, none, none,
    some "\x7b\"GLC\": 42\x7d", none,
    some "[\x7b\"residue_name\": \"GLC\", \"chain_id\": \"A\", \"ligand_id\": 101\x7d]",
    none⟩

/-- Claim C6 counterexample: the claimed three-candidate association
resolves the bare residue name `GLC` at the top level of the metrics
mapping and would attach the value 42, but the import engine leaves the
ligand's binding data empty: it only ever tries the single key
`"{chain_id}_{ligand_id}"` inside a nested `ligand_binding` sub-mapping,
which is absent here. -/
theorem C6_counterexample :
    claimedBindingLookup (parseBindingMetricsField rowC6.binding_metrics) "A" "101" "GLC" =
        some (.vint 42) ∧
      ((processRow (DB.mk [] [] [] 0) rowC6).1).ligands.map (fun l => l.binding_data) =
        [none] := by
  exact ⟨rfl, rfl⟩

/-- Claim C6 amended: for every ligand row the import engine writes, binding
data is associated through exactly one candidate key,
`"{chain_id}_{ligand_id}"`, looked up only inside the `ligand_binding`
sub-mapping of a truthy binding-metrics value; neither the top level of the
mapping nor the bare residue name nor `"{chain_id}:{residue_name}"` is ever
consulted, and no match leaves the metrics empty without error. -/
theorem C6_single_binding_key :
    ∀ (db : DB) (row : Row) (l : LigandRow),
      l ∈ ((processRow db row).1).ligands →
      l ∈ db.ligands ∨
        l.binding_data =
          singleKeyLookup (rowBM row) (pyToString l.chain_id ++ "_" ++ l.residue_id) := by
  intro db row l hl
  have main : ∀ (pid : Nat) (b : Bool) (d : DB), d.ligands = db.ligands →
      l ∈ (ligStage row pid b d).ligands →
      l ∈ db.ligands ∨
        l.binding_data =
          singleKeyLookup (rowBM row) (pyToString l.chain_id ++ "_" ++ l.residue_id) := by
    intro pid b d hd hmem
    rcases ligStage_ligands_cases row pid b d with hcase | ⟨s, hs, hcase⟩
    · rw [hcase, hd] at hmem
      exact Or.inl hmem
    · rw [hcase] at hmem
      rcases List.mem_append.mp hmem with hmem2 | hmem2
      · cases b with
        | true =>
            rw [if_pos rfl] at hmem2
            exact Or.inl (hd ▸ List.mem_of_mem_filter hmem2)
        | false =>
            rw [if_neg (by simp)] at hmem2
            exact Or.inl (hd ▸ hmem2)
      · exact Or.inr (addLigands_fields pid (rowBM row) _ l hmem2).2
  cases hfind : db.proteins.find? (fun q => q.pdb_id == row.pdb_id) with
  | some p =>
      rw [processRow_update db row p hfind] at hl
      refine main p.id true _ ?_ hl
      rw [expStage_ligands, addFamilies_eq]
  | none =>
      rw [processRow_create db row hfind] at hl
      refine main db.nextId false _ ?_ hl
      rw [expStage_ligands, addFamilies_eq]

/-- Witness for the amended C6 theorem: the single ligand row written for
`rowC6` (from an empty store) satisfies the single-key association. -/
theorem C6_single_binding_key_witness :
    (⟨0, .vstr "GLC", .vstr "A", "101", .vint 0, .vint 0, .vint 0, .vint 0, .vstr "",
        .vstr "", none, none, none, none, none, none, none⟩ : LigandRow) ∈
        (DB.mk [] [] [] 0).ligands ∨
      (⟨0, .vstr "GLC", .vstr "A", "101", .vint 0, .vint 0, .vint 0, .vint 0, .vstr "",
          .vstr "", none, none, none, none, none, none, none⟩ : LigandRow).binding_data =
        singleKeyLookup (rowBM rowC6)
          (pyToString
              (⟨0, .vstr "GLC", .vstr "A", "101", .vint 0, .vint 0, .vint 0, .vint 0,
                  .vstr "", .vstr "", none, none, none, none, none, none, none⟩ :
                LigandRow).chain_id ++
            "_" ++
            (⟨0, .vstr "GLC", .vstr "A", "101", .vint 0, .vint 0, .vint 0, .vint 0,
                .vstr "", .vstr "", none, none, none, none, none, none, none⟩ :
              LigandRow).residue_id) :=
  C6_single_binding_key (DB.mk [] [] [] 0) rowC6 _ (by decide)

lemma firstHitDistSq_isSome (a : Atom) :
    ∀ lig : List Atom, (firstHitDistSq a lig).isSome = true ↔ ∃ l ∈ lig, distSq a l < 25 := by
  intro lig
  induction lig with
  | nil => simp [firstHitDistSq]
  | cons x xs ih =>
      unfold firstHitDistSq
      by_cases h : distSq a x < 25
      · simp [h]
      · simp [h, ih]

lemma residueContacts_length (cid : String) (rs : Int) (rn : String) (lig : List Atom) :
    ∀ atoms : List Atom,
      (atoms.filterMap (fun a =>
          (firstHitDistSq a lig).map
            (fun d2 => (⟨cid, rs, rn, d2⟩ : ContactEntry)))).length =
        atoms.countP (fun a => decide (∃ l ∈ lig, distSq a l < 25)) := by
  intro atoms
  induction atoms with
  | nil => rfl
  | cons a as ih =>
      rw [List.filterMap_cons, List.countP_cons]
      cases hfh : firstHitDistSq a lig with
      | none =>
          have hdec : (decide (∃ l ∈ lig, distSq a l < 25)) = false := by
            rw [decide_eq_false_iff_not]
            intro hex
            have hsome := (firstHitDistSq_isSome a lig).mpr hex
            rw [hfh] at hsome
            exact absurd hsome (by simp)
          simp [hdec, ih]
      | some d2 =>
          have hdec : (decide (∃ l ∈ lig, distSq a l < 25)) = true := by
            rw [decide_eq_true_eq]
            exact (firstHitDistSq_isSome a lig).mp (by rw [hfh]; rfl)
          simp [hdec, ih]

/-- Claim C5 counterexample: one standard residue (`ALA`, resseq 1, chain
`A`) with two atoms, each having a ligand atom strictly within 5.0 A,
contributes TWO entries to the contact list — the `break` at
categorization/__init__.py 134 leaves only the innermost ligand-atom loop,
so the short-circuit is per residue atom, not per residue as claimed.
(Distances are recorded squared: 1 and 2 are the squares of the two pair
distances, both below 25 = 5.0².) -/
theorem C5_counterexample :
    bindingResidues ⟨[⟨"A", [⟨" ", 1, "ALA", [⟨0, 0, 0⟩, ⟨1, 0, 0⟩]⟩]⟩]⟩ [⟨0, 0, 1⟩] =
      [⟨"A", 1, "ALA", 1⟩, ⟨"A", 1, "ALA", 2⟩] := by
  norm_num [bindingResidues, residueContacts, firstHitDistSq, distSq,
    List.filterMap_cons, List.filterMap_nil]

/-- Claim C5 amended: in the contact scan every standard residue contributes
one entry per residue ATOM that has at least one ligand atom strictly below
the 5.0 A cutoff (the recorded distance being that of the first qualifying
ligand atom in iteration order), and each such entry appears in the
binding-residue list; a residue with no qualifying pair contributes no
entry (count zero). -/
theorem C5_contact_entries_per_atom :
    ∀ (m : ModelM) (lig : List Atom) (c : ChainM) (r : ResidueM),
      c ∈ m.chains → r ∈ c.residues → r.hetflag = " " →
      (residueContacts c.cid r lig).length =
          r.atoms.countP (fun a => decide (∃ l ∈ lig, distSq a l < 25)) ∧
        ∀ e ∈ residueContacts c.cid r lig, e ∈ bindingResidues m lig := by
  intro m lig c r hc hr hhet
  constructor
  · exact residueContacts_length c.cid r.resseq r.resname lig r.atoms
  · intro e he
    unfold bindingResidues
    refine List.mem_flatMap.mpr ⟨c, hc, ?_⟩
    refine List.mem_flatMap.mpr ⟨r, hr, ?_⟩
    rw [if_pos hhet]
    exact he

/-- Witness for the amended C5 theorem at a concrete one-chain model. -/
theorem C5_contact_entries_per_atom_witness :
    (residueContacts "A" ⟨" ", 1, "GLY", [⟨0, 0, 0⟩]⟩ []).length =
        ([⟨0, 0, 0⟩] : List Atom).countP
          (fun a => decide (∃ l ∈ ([] : List Atom), distSq a l < 25)) ∧
      ∀ e ∈ residueContacts "A" ⟨" ", 1, "GLY", [⟨0, 0, 0⟩]⟩ [],
        e ∈ bindingResidues ⟨[⟨"A", [⟨" ", 1, "GLY", [⟨0, 0, 0⟩]⟩]⟩]⟩ [] :=
  C5_contact_entries_per_atom ⟨[⟨"A", [⟨" ", 1, "GLY", [⟨0, 0, 0⟩]⟩]⟩]⟩ []
    ⟨"A", [⟨" ", 1, "GLY", [⟨0, 0, 0⟩]⟩]⟩ ⟨" ", 1, "GLY", [⟨0, 0, 0⟩]⟩
    (by simp) (by simp) rfl

/-- Whether an enhancement outcome is an uncaught exception. -/
def isCrash : EnhanceResult → Bool
  | .crash _ => true
  | _ => false

lemma batchLoop_ok (table : List BaseRecord) (files : String → Option ModelM)
    (mdict : List (String × Metadata)) :
    ∀ (ids : List String) (acc : List (Option Enriched)),
      (∀ pid ∈ ids,
        isCrash (enhance_structure_data table files pid
          ((List.lookup pid.toUpper mdict).getD emptyMetadata)) = false) →
      batchLoop table files mdict acc ids =
        .ok (acc ++ ids.map (enhanceEntry table files mdict)) := by
  intro ids
  induction ids with
  | nil => intro acc _; simp [batchLoop]
  | cons pid rest ih =>
      intro acc h
      have hp := h pid (List.mem_cons_self pid rest)
      unfold batchLoop
      cases henh : enhance_structure_data table files pid
          ((List.lookup pid.toUpper mdict).getD emptyMetadata) with
      | crash msg => rw [henh] at hp; exact absurd hp (by simp [isCrash])
      | ok r =>
          show batchLoop table files mdict (acc ++ [some r]) rest = _
          rw [ih (acc ++ [some r]) (fun q hq => h q (List.mem_cons_of_mem pid hq))]
          have hentry : enhanceEntry table files mdict pid = some r := by
            unfold enhanceEntry
            rw [henh]
          rw [List.map_cons, hentry]
          simp
      | empty =>
          show batchLoop table files mdict (acc ++ [none]) rest = _
          rw [ih (acc ++ [none]) (fun q hq => h q (List.mem_cons_of_mem pid hq))]
          have hentry : enhanceEntry table files mdict pid = none := by
            unfold enhanceEntry
            rw [henh]
          rw [List.map_cons, hentry]
          simp

/-- The base table for the C9 counterexample: records `1AAA` and `3CCC`
carry a valid serialized ligand list, `2BBB` an unparseable one; every
structure file is available. -/
def tableC9 : List BaseRecord :=
  [⟨"1AAA", "[]", []⟩, ⟨"2BBB", "junk", []⟩, ⟨"3CCC", "[]", []⟩]

/-- The structure-file collaborator of the C9 counterexample. -/
def filesC9 : String → Option ModelM := fun _ => some ⟨[]⟩

/-- Claim C9 counterexample: enhancing `2BBB` raises (its serialized ligand
list cannot be `eval`-ed while its structure file is available), and the
raise aborts the whole batch — `3CCC` is never processed and NO results are
collected, while the same batch without `2BBB` succeeds with both entries.
A failure of one structure therefore does abort and alter the processing of
the others, contrary to the claim. -/
theorem C9_counterexample :
    batch_enhance_structures tableC9 filesC9 [] ["1AAA", "2BBB", "3CCC"] =
        .error "eval: unparseable ligand serialization" ∧
      batch_enhance_structures tableC9 filesC9 [] ["1AAA", "3CCC"] =
        .ok [enhanceEntry tableC9 filesC9 [] "1AAA",
          enhanceEntry tableC9 filesC9 [] "3CCC"] := by
  exact ⟨rfl, rfl⟩

/-- Claim C9 amended: batch enhancement is an independent per-id map —
each output entry depends only on its own id, an absent base record yields
an empty entry with the batch continuing, and all per-structure results are
collected — PROVIDED no per-structure enhancement raises; an uncaught raise
(e.g. an unparseable serialized ligand list with the structure file
available) aborts the whole batch. -/
theorem C9_batch_independent :
    ∀ (table : List BaseRecord) (files : String → Option ModelM)
      (mdict : List (String × Metadata)) (ids : List String),
      (∀ pid ∈ ids,
        isCrash (enhance_structure_data table files pid
          ((List.lookup pid.toUpper mdict).getD emptyMetadata)) = false) →
      batch_enhance_structures table files mdict ids =
        .ok (ids.map (enhanceEntry table files mdict)) := by
  intro table files mdict ids h
  unfold batch_enhance_structures
  rw [batchLoop_ok table files mdict ids [] h]
  simp

/-- Witness for the amended C9 theorem: a crash-free two-id batch (one of
which could also be made absent without aborting). -/
theorem C9_batch_independent_witness :
    batch_enhance_structures tableC9 filesC9 [] ["1AAA", "3CCC"] =
      .ok (["1AAA", "3CCC"].map (enhanceEntry tableC9 filesC9 [])) :=
  C9_batch_independent tableC9 filesC9 [] ["1AAA", "3CCC"] (by decide)

lemma scalars_id {a b : ProteinRec} (h : scalarsOf b = scalarsOf a) : b.id = a.id :=
  congrArg (fun t => t.1) h

lemma exp_set_noop (q : ProteinRec) (v : PyVal) (h : q.exp_conditions = some v) :
    { q with exp_conditions := some v } = q := by
  cases q
  simp only at h
  rw [h]

lemma expStage_sharp (row : Row) (pid : Nat) :
    (∀ d : DB, expStage row pid d = d) ∨
      ∃ v, ∀ d : DB, expStage row pid d =
        updateProteins d pid (fun q => { q with exp_conditions := some v }) := by
  unfold expStage
  cases hec : row.experimental_conditions with
  | none => exact Or.inl (fun d => rfl)
  | some s =>
      cases hpv : parseExpConditionsField s with
      | none => exact Or.inl (fun d => by simp [hpv])
      | some v => exact Or.inr ⟨v, fun d => by simp [hpv]⟩

lemma map_id_of_eq {α : Type} (f : α → α) (l : List α) (h : ∀ a ∈ l, f a = a) :
    l.map f = l := by
  induction l with
  | nil => rfl
  | cons a as ih =>
      rw [List.map_cons, h a (List.mem_cons_self a as),
        ih (fun b hb => h b (List.mem_cons_of_mem a hb))]

lemma find?_pdb_map (h : ProteinRec → ProteinRec) (hp : ∀ q, (h q).pdb_id = q.pdb_id)
    (l : List ProteinRec) (s : String) :
    (l.map h).find? (fun q => q.pdb_id == s) = (l.find? (fun q => q.pdb_id == s)).map h := by
  induction l with
  | nil => rfl
  | cons a as ih =>
      rw [List.map_cons]
      by_cases hpa : (a.pdb_id == s) = true
      · rw [List.find?_cons_of_pos (as.map h)
            (show ((h a).pdb_id == s) = true by rw [hp a]; exact hpa),
          List.find?_cons_of_pos as hpa]
        rfl
      · rw [List.find?_cons_of_neg (as.map h)
            (show ¬((h a).pdb_id == s) = true by rw [hp a]; exact hpa),
          List.find?_cons_of_neg as hpa, ih]

lemma filter_pdb_map (h : ProteinRec → ProteinRec) (hp : ∀ q, (h q).pdb_id = q.pdb_id)
    (l : List ProteinRec) (s : String) :
    (l.map h).filter (fun q => q.pdb_id == s) = (l.filter (fun q => q.pdb_id == s)).map h := by
  induction l with
  | nil => rfl
  | cons a as ih =>
      rw [List.map_cons]
      by_cases hpa : (a.pdb_id == s) = true
      · rw [@List.filter_cons_of_pos _ (fun q => q.pdb_id == s) (h a) (as.map h)
            (show ((h a).pdb_id == s) = true by rw [hp a]; exact hpa),
          @List.filter_cons_of_pos _ (fun q => q.pdb_id == s) a as hpa, List.map_cons, ih]
      · rw [@List.filter_cons_of_neg _ (fun q => q.pdb_id == s) (h a) (as.map h)
            (show ¬((h a).pdb_id == s) = true by rw [hp a]; exact hpa),
          @List.filter_cons_of_neg _ (fun q => q.pdb_id == s) a as hpa, ih]

lemma filter_ne_addLigands (pid : Nat) (bm : PyVal) (es : List PyVal) :
    (addLigands pid bm es).filter (fun l => l.protein_id != pid) = [] := by
  rw [List.filter_eq_nil]
  intro a ha
  have := (addLigands_fields pid bm es a ha).1
  simp [this]

lemma filter_ne_of_lt (nid : Nat) (ls : List LigandRow)
    (h : ∀ l ∈ ls, l.protein_id < nid) :
    ls.filter (fun l => l.protein_id != nid) = ls := by
  rw [List.filter_eq_self]
  intro a ha
  have := Nat.ne_of_lt (h a ha)
  simp [this]

lemma filter_ne_idem (pid : Nat) (ls : List LigandRow) :
    (ls.filter (fun l => l.protein_id != pid)).filter (fun l => l.protein_id != pid) =
      ls.filter (fun l => l.protein_id != pid) := by
  rw [List.filter_eq_self]
  intro a ha
  exact (List.mem_filter.mp ha).2

lemma import_single (db : DB) (r : Row) :
    (import_enhanced_structures db [r] none).committed = (processRow db r).1 := by
  obtain ⟨i2, u2, heq, _⟩ := importLoop_none [r] db db 0 0 []
  unfold import_enhanced_structures
  rw [heq]
  rfl

lemma dbExt {a b : DB} (h1 : a.proteins = b.proteins) (h2 : a.ligands = b.ligands)
    (h3 : a.categories = b.categories) (h4 : a.nextId = b.nextId) : a = b := by
  cases a with
  | mk ap al ac an =>
      cases b with
      | mk bp bl bc bn =>
          simp only at h1 h2 h3 h4
          rw [h1, h2, h3, h4]

lemma expStage_fun (row : Row) (pid : Nat) :
    ∃ g : ProteinRec → ProteinRec,
      (∀ d : DB, expStage row pid d = ⟨d.proteins.map g, d.ligands, d.categories, d.nextId⟩) ∧
      (∀ q, (g q).categories = q.categories) ∧
      (∀ q, scalarsOf (g q) = scalarsOf q) ∧
      (∀ q, g (g q) = g q) := by
  rcases expStage_sharp row pid with hE | ⟨v, hE⟩
  · refine ⟨id, fun d => ?_, fun q => rfl, fun q => rfl, fun q => rfl⟩
    rw [hE d, List.map_id]
  · refine ⟨fun q => if q.id = pid then { q with exp_conditions := some v } else q,
      fun d => by rw [hE d]; rfl, ?_, ?_, ?_⟩
    · intro q; by_cases hq : q.id = pid <;> simp [hq]
    · intro q; by_cases hq : q.id = pid <;> simp [hq, scalarsOf]
    · intro q
      by_cases hq : q.id = pid <;> simp [hq]

lemma ligStage_ligands_none (row : Row) (pid : Nat) (b : Bool) (d : DB)
    (h : ligandFieldOf row = none) : (ligStage row pid b d).ligands = d.ligands := by
  unfold ligStage
  rw [h]

lemma ligStage_ligands_some (row : Row) (pid : Nat) (b : Bool) (d : DB) (s : String)
    (h : ligandFieldOf row = some s) :
    (ligStage row pid b d).ligands =
      (if b then d.ligands.filter (fun l => l.protein_id != pid) else d.ligands) ++
        addLigands pid (rowBM row) (pyIter (parseLigandsField s)) := by
  unfold ligStage
  rw [h]
  cases b <;> rfl

lemma processRow_idem (db : DB) (row : Row)
    (hlig : ∀ l ∈ db.ligands, l.protein_id < db.nextId)
    (hone : (structuresFor db row.pdb_id).length ≤ 1) :
    processRow ((processRow db row).1) row = ((processRow db row).1, true) ∧
      (structuresFor ((processRow db row).1) row.pdb_id).length = 1 := by
  cases hfind : db.proteins.find? (fun q => q.pdb_id == row.pdb_id) with
  | some p =>
      obtain ⟨g, hgdb, hgcat, hgsc, hgg⟩ := expStage_fun row p.id
      have hrun1 : (processRow db row).1 =
          ligStage row p.id true
            ⟨(db.proteins.map (addFamsP p.id (newTags row))).map g, db.ligands,
              catFold db.categories (newTags row), db.nextId⟩ := by
        rw [processRow_update db row p hfind]
        show ligStage row p.id true
            (expStage row p.id (addFamilies db p.id (newTags row))) = _
        rw [addFamilies_eq, hgdb]
      set db1 := (processRow db row).1 with hdb1
      have hpro : db1.proteins = (db.proteins.map (addFamsP p.id (newTags row))).map g := by
        rw [hrun1, ligStage_proteins]
      have hcat : db1.categories = catFold db.categories (newTags row) := by
        rw [hrun1, ligStage_categories]
      have hnid : db1.nextId = db.nextId := by
        rw [hrun1, ligStage_nextId]
      have hpdb : ∀ q, (g (addFamsP p.id (newTags row) q)).pdb_id = q.pdb_id := fun q => by
        rw [scalars_pdb (hgsc (addFamsP p.id (newTags row) q)), addFamsP_pdb]
      have hidp : ∀ q, (g (addFamsP p.id (newTags row) q)).id = q.id := fun q => by
        rw [scalars_id (hgsc (addFamsP p.id (newTags row) q)), addFamsP_id]
      have hfind1 : db1.proteins.find? (fun q => q.pdb_id == row.pdb_id) =
          some (g (addFamsP p.id (newTags row) p)) := by
        rw [hpro, List.map_map, find?_pdb_map (g ∘ addFamsP p.id (newTags row))
          (fun q => hpdb q) db.proteins row.pdb_id, hfind]
        rfl
      have hmem_db1 : ∀ q ∈ db1.proteins,
          ∃ q0 ∈ db.proteins, q = g (addFamsP p.id (newTags row) q0) := by
        intro q hq
        rw [hpro] at hq
        obtain ⟨q1, hq1, hq1eq⟩ := List.mem_map.mp hq
        obtain ⟨q0, hq0, hq0eq⟩ := List.mem_map.mp hq1
        exact ⟨q0, hq0, by rw [← hq1eq, ← hq0eq]⟩
      have hstep1 : addFamilies db1 p.id (newTags row) = db1 := by
        rw [addFamilies_eq]
        have hP : db1.proteins.map (addFamsP p.id (newTags row)) = db1.proteins := by
          apply map_id_of_eq
          intro q hq
          apply addFamsP_fixed
          intro f hf hqid
          obtain ⟨q0, hq0, rfl⟩ := hmem_db1 q hq
          rw [hgcat]
          apply (addFamsP_mem _ _ _ _).mpr
          refine Or.inr ⟨?_, hf⟩
          rw [← addFamsP_id p.id (newTags row) q0, ← scalars_id
            (hgsc (addFamsP p.id (newTags row) q0))]
          exact hqid
        have hC : catFold db1.categories (newTags row) = db1.categories := by
          rw [hcat]
          exact catFold_fixed _ _ (fun f hf => (catFold_mem _ _ _).mpr (Or.inr hf))
        rw [hP, hC]
      have hstep2 : expStage row p.id db1 = db1 := by
        rw [hgdb db1]
        have hP : db1.proteins.map g = db1.proteins := by
          apply map_id_of_eq
          intro q hq
          obtain ⟨q0, hq0, rfl⟩ := hmem_db1 q hq
          exact hgg _
        rw [hP]
      have hstep3 : ligStage row p.id true db1 = db1 := by
        refine dbExt (ligStage_proteins _ _ _ _) ?_ (ligStage_categories _ _ _ _)
          (ligStage_nextId _ _ _ _)
        cases hlf : ligandFieldOf row with
        | none => exact ligStage_ligands_none _ _ _ _ hlf
        | some s =>
            rw [ligStage_ligands_some _ _ _ _ s hlf, if_pos rfl]
            have hd1lig : db1.ligands =
                db.ligands.filter (fun l => l.protein_id != p.id) ++
                  addLigands p.id (rowBM row) (pyIter (parseLigandsField s)) := by
              rw [hrun1, ligStage_ligands_some _ _ _ _ s hlf, if_pos rfl]
            rw [hd1lig, List.filter_append, filter_ne_idem, filter_ne_addLigands,
              List.append_nil]
      have hmain : processRow db1 row = (db1, true) := by
        have hrun2 := processRow_update db1 row (g (addFamsP p.id (newTags row) p)) hfind1
        rw [hidp p] at hrun2
        rw [hrun2, hstep1, hstep2, hstep3]
      refine ⟨hmain, ?_⟩
      unfold structuresFor
      rw [hpro, List.map_map, filter_pdb_map (g ∘ addFamsP p.id (newTags row))
        (fun q => hpdb q) db.proteins row.pdb_id, List.length_map]
      have hge : 1 ≤ (db.proteins.filter (fun q => q.pdb_id == row.pdb_id)).length := by
        apply List.length_pos_of_mem
        have hps := List.find?_some hfind
        exact List.mem_filter.mpr ⟨List.mem_of_find?_eq_some hfind, hps⟩
      have hle := hone
      unfold structuresFor at hle
      omega
  | none =>
      obtain ⟨g, hgdb, hgcat, hgsc, hgg⟩ := expStage_fun row db.nextId
      have hrun1 : (processRow db row).1 =
          ligStage row db.nextId false
            ⟨((db.proteins ++ [newProtein db row]).map
                (addFamsP db.nextId (newTags row))).map g, db.ligands,
              catFold db.categories (newTags row), db.nextId + 1⟩ := by
        rw [processRow_create db row hfind]
        show ligStage row db.nextId false
            (expStage row db.nextId
              (addFamilies
                ⟨db.proteins ++ [newProtein db row], db.ligands, db.categories,
                  db.nextId + 1⟩ db.nextId (newTags row))) = _
        rw [addFamilies_eq, hgdb]
      set base := db.proteins ++ [newProtein db row] with hbase
      set db1 := (processRow db row).1 with hdb1
      have hpro : db1.proteins = (base.map (addFamsP db.nextId (newTags row))).map g := by
        rw [hrun1, ligStage_proteins]
      have hcat : db1.categories = catFold db.categories (newTags row) := by
        rw [hrun1, ligStage_categories]
      have hnid : db1.nextId = db.nextId + 1 := by
        rw [hrun1, ligStage_nextId]
      have hpdb : ∀ q, (g (addFamsP db.nextId (newTags row) q)).pdb_id = q.pdb_id := fun q => by
        rw [scalars_pdb (hgsc (addFamsP db.nextId (newTags row) q)), addFamsP_pdb]
      have hidp : ∀ q, (g (addFamsP db.nextId (newTags row) q)).id = q.id := fun q => by
        rw [scalars_id (hgsc (addFamsP db.nextId (newTags row) q)), addFamsP_id]
      have hfind1 : db1.proteins.find? (fun q => q.pdb_id == row.pdb_id) =
          some (g (addFamsP db.nextId (newTags row) (newProtein db row))) := by
        rw [hpro, List.map_map, find?_pdb_map (g ∘ addFamsP db.nextId (newTags row))
          (fun q => hpdb q) base row.pdb_id]
        have hbfind : base.find? (fun q => q.pdb_id == row.pdb_id) =
            some (newProtein db row) := by
          rw [hbase, List.find?_append, hfind]
          have : (newProtein db row).pdb_id == row.pdb_id := by
            show (row.pdb_id == row.pdb_id) = true
            exact beq_self_eq_true row.pdb_id
          rw [@List.find?_cons_of_pos _ (fun q => q.pdb_id == row.pdb_id)
            (newProtein db row) [] this]
          rfl
        rw [hbfind]
        rfl
      have hmem_db1 : ∀ q ∈ db1.proteins,
          ∃ q0 ∈ base, q = g (addFamsP db.nextId (newTags row) q0) := by
        intro q hq
        rw [hpro] at hq
        obtain ⟨q1, hq1, hq1eq⟩ := List.mem_map.mp hq
        obtain ⟨q0, hq0, hq0eq⟩ := List.mem_map.mp hq1
        exact ⟨q0, hq0, by rw [← hq1eq, ← hq0eq]⟩
      have hstep1 : addFamilies db1 db.nextId (newTags row) = db1 := by
        rw [addFamilies_eq]
        have hP : db1.proteins.map (addFamsP db.nextId (newTags row)) = db1.proteins := by
          apply map_id_of_eq
          intro q hq
          apply addFamsP_fixed
          intro f hf hqid
          obtain ⟨q0, hq0, rfl⟩ := hmem_db1 q hq
          rw [hgcat]
          apply (addFamsP_mem _ _ _ _).mpr
          refine Or.inr ⟨?_, hf⟩
          rw [← addFamsP_id db.nextId (newTags row) q0, ← scalars_id
            (hgsc (addFamsP db.nextId (newTags row) q0))]
          exact hqid
        have hC : catFold db1.categories (newTags row) = db1.categories := by
          rw [hcat]
          exact catFold_fixed _ _ (fun f hf => (catFold_mem _ _ _).mpr (Or.inr hf))
        rw [hP, hC]
      have hstep2 : expStage row db.nextId db1 = db1 := by
        rw [hgdb db1]
        have hP : db1.proteins.map g = db1.proteins := by
          apply map_id_of_eq
          intro q hq
          obtain ⟨q0, hq0, rfl⟩ := hmem_db1 q hq
          exact hgg _
        rw [hP]
      have hstep3 : ligStage row db.nextId true db1 = db1 := by
        refine dbExt (ligStage_proteins _ _ _ _) ?_ (ligStage_categories _ _ _ _)
          (ligStage_nextId _ _ _ _)
        cases hlf : ligandFieldOf row with
        | none => exact ligStage_ligands_none _ _ _ _ hlf
        | some s =>
            rw [ligStage_ligands_some _ _ _ _ s hlf, if_pos rfl]
            have hd1lig : db1.ligands =
                db.ligands ++
                  addLigands db.nextId (rowBM row) (pyIter (parseLigandsField s)) := by
              rw [hrun1, ligStage_ligands_some _ _ _ _ s hlf]
              rw [if_neg (by simp)]
            rw [hd1lig, List.filter_append, filter_ne_of_lt db.nextId db.ligands hlig,
              filter_ne_addLigands, List.append_nil]
      have hmain : processRow db1 row = (db1, true) := by
        have hrun2 := processRow_update db1 row
          (g (addFamsP db.nextId (newTags row) (newProtein db row))) hfind1
        rw [hidp (newProtein db row)] at hrun2
        have hnewid : (newProtein db row).id = db.nextId := rfl
        rw [hnewid] at hrun2
        rw [hrun2, hstep1, hstep2, hstep3]
      refine ⟨hmain, ?_⟩
      unfold structuresFor
      rw [hpro, List.map_map, filter_pdb_map (g ∘ addFamsP db.nextId (newTags row))
        (fun q => hpdb q) base row.pdb_id, List.length_map, hbase, List.filter_append]
      have hnil : db.proteins.filter (fun q => q.pdb_id == row.pdb_id) = [] := by
        rw [List.filter_eq_nil_iff]
        exact List.find?_eq_none.mp hfind
      rw [hnil]
      have : ([newProtein db row].filter (fun q => q.pdb_id == row.pdb_id)) =
          [newProtein db row] := by
        rw [List.filter_eq_self]
        intro a ha
        rw [List.mem_singleton.mp ha]
        show (row.pdb_id == row.pdb_id) = true
        exact beq_self_eq_true row.pdb_id
      rw [this]
      rfl

/-- Claim C1: importing the same enrichment row twice (each time as a
one-row batch, as `import_enhanced_structures` does per CSV row) is
idempotent: starting from a store whose ligand owners all have allocated
ids and which holds at most one record for the row's `pdb_id`, the store
after the second run equals the store after the first run — in particular
the structure's category set and ligand set are unchanged — and the store
holds exactly one StructureRecord for that `pdb_id`. -/
theorem C1_import_idempotent :
    ∀ (db : DB) (row : Row),
      (∀ l ∈ db.ligands, l.protein_id < db.nextId) →
      (structuresFor db row.pdb_id).length ≤ 1 →
      (import_enhanced_structures
          (import_enhanced_structures db [row] none).committed [row] none).committed =
          (import_enhanced_structures db [row] none).committed ∧
        (structuresFor (import_enhanced_structures db [row] none).committed
            row.pdb_id).length = 1 := by
  intro db row hlig hone
  obtain ⟨hidem, hcount⟩ := processRow_idem db row hlig hone
  rw [import_single db row, import_single ((processRow db row).1) row]
  exact ⟨by rw [hidem], hcount⟩

/-- Witness for C1: the idempotence theorem applied to an empty store and a
concrete row carrying families and ligands. -/
theorem C1_import_idempotent_witness :
    (∀ l ∈ (DB.mk [] [] [] 0).ligands, l.protein_id < (DB.mk [] [] [] 0).nextId) ∧
      (structuresFor (DB.mk [] [] [] 0) rowC6.pdb_id).length ≤ 1 ∧
      ((import_enhanced_structures
          (import_enhanced_structures (DB.mk [] [] [] 0) [rowC6] none).committed [rowC6]
          none).committed =
          (import_enhanced_structures (DB.mk [] [] [] 0) [rowC6] none).committed ∧
        (structuresFor
            (import_enhanced_structures (DB.mk [] [] [] 0) [rowC6] none).committed
            rowC6.pdb_id).length = 1) :=
  ⟨by simp, by decide,
    C1_import_idempotent (DB.mk [] [] [] 0) rowC6 (by simp) (by decide)⟩

end DockMind
